import Mathlib

/-!
# Verification of the BIDS source-processing pipeline

Shallow embedding of the validation / separation / modality-mapping /
name-building / conversion logic of the `bids` application
(`src/process/components/domain/mri/...` and `src/utils/common.py`),
together with theorems settling the frozen specification claims.

Filesystem reads, DICOM header extraction and subprocess invocation are
modelled by passing their results (file listings, metadata dictionaries,
modification times) as explicit arguments; all decision logic is
translated from the Python source.
-/

namespace Bids

/-! ## Python string primitives used by the sources -/

/-- Split a character list at every occurrence of a separator character
(Python `str.split(sep)` for the single-character separators used by the
sources; like Python, `""` splits to `[""]` and separators at the edges
produce empty tokens). -/
def splitOnCharAux (sep : Char) : List Char → List (List Char)
  | [] => [[]]
  | c :: rest =>
    let r := splitOnCharAux sep rest
    if c = sep then [] :: r
    else (c :: r.headD []) :: r.tail

/-- Python `s.split(sep)` for a one-character separator. -/
def pySplitChar (s : String) (sep : Char) : List String :=
  (splitOnCharAux sep s.data).map String.mk

/-- Python `s.endswith(suffix)`. -/
def strEndsWith (s suffix : String) : Bool :=
  suffix.data.isSuffixOf s.data

/-- Python `s.startswith(prefixStr)`. -/
def strStartsWith (s prefixStr : String) : Bool :=
  prefixStr.data.isPrefixOf s.data

/-- Python `s.lower()` (ASCII case folding, as in all strings handled here). -/
def strToLower (s : String) : String :=
  String.mk (s.data.map Char.toLower)

/-- Python `c in s` for a character. -/
def strContainsChar (s : String) (c : Char) : Bool :=
  s.data.contains c

/-- Python `s[:-n]` (drop the last `n` characters). -/
def strDropRight (s : String) (n : Nat) : String :=
  String.mk (s.data.take (s.data.length - n))

/-- Python `s.strip()` (used by `int(...)`). -/
def pyStrip (s : String) : List Char :=
  ((s.data.dropWhile Char.isWhitespace).reverse.dropWhile Char.isWhitespace).reverse

/-- Model of `utils.common.remove_all_whitespace`: `re.sub(r'\s+', '', text)`. -/
def remove_all_whitespace (s : String) : String :=
  String.mk (s.data.filter (fun c => !c.isWhitespace))

/-- Model of `utils.common.remove_special_chars`: `re.sub(r'[^a-zA-Z0-9_-]', '', text)`. -/
def remove_special_chars (s : String) : String :=
  String.mk (s.data.filter (fun c => c.isAlphanum || c = '_' || c = '-'))

/-- Model of `utils.common.zero_fill`: `f"{int(num):02d}"` for an integer argument. -/
def zero_fill (n : Int) : String :=
  let s := toString n
  if s.length < 2 then "".pushn '0' (2 - s.length) ++ s else s

/-- Python `int(s)` restricted to the optionally-signed decimal strings that
occur in this pipeline (surrounding whitespace stripped first, as `int` does). -/
def pyInt? (s : String) : Option Int :=
  let (sign, digits) : Int × List Char :=
    match pyStrip s with
    | '+' :: ds => (1, ds)
    | '-' :: ds => (-1, ds)
    | ds => (1, ds)
  if digits.isEmpty || !digits.all Char.isDigit then none
  else some (sign * (digits.foldl (fun a c => a * 10 + ((c.toNat - 48 : Nat) : Int)) (0 : Int)))

/-- Model of `pathlib.Path(p).name`: the part after the last `/`. -/
def pyBasename (p : String) : String :=
  (pySplitChar p '/').getLastD p

/-- Model of `pathlib.Path(name).suffix`: from the last `.`, provided that dot is
neither the first nor the last character of the name. -/
def pySuffix (name : String) : String :=
  let cs := name.data
  match (cs.drop 1).reverse.takeWhile (· ≠ '.') with
  | [] => ""                        -- trailing dot or empty remainder
  | ext =>
    if ext.length + 1 = cs.length then ""   -- no dot at position ≥ 1
    else String.mk ('.' :: ext.reverse)

/-- Model of `pathlib.Path(name).stem`: the name with `pySuffix` removed. -/
def pyStem (name : String) : String :=
  name.dropRight (pySuffix name).length

/-! ## SHA-1 (`hashlib.sha1`), used by `validator._sha1`

Faithful implementation over `Nat`, all words kept `< 2^32` by explicit
`% 4294967296`. -/

/-- UTF-8 encoding of one character, as a list of byte values. -/
def utf8EncodeChar (c : Char) : List Nat :=
  let n := c.toNat
  if n < 0x80 then [n]
  else if n < 0x800 then
    [0xC0 ||| (n >>> 6), 0x80 ||| (n &&& 0x3F)]
  else if n < 0x10000 then
    [0xE0 ||| (n >>> 12), 0x80 ||| ((n >>> 6) &&& 0x3F), 0x80 ||| (n &&& 0x3F)]
  else
    [0xF0 ||| (n >>> 18), 0x80 ||| ((n >>> 12) &&& 0x3F),
     0x80 ||| ((n >>> 6) &&& 0x3F), 0x80 ||| (n &&& 0x3F)]

/-- Model of `s.encode("utf-8")` as a byte list. -/
def utf8Bytes (s : String) : List Nat :=
  (s.data.map utf8EncodeChar).flatten

/-- Rotate a 32-bit word left by `n` bits. -/
def rotl32 (n x : Nat) : Nat :=
  ((x <<< n) ||| (x >>> (32 - n))) % 4294967296

/-- SHA-1 message padding: `0x80`, zeros to 56 mod 64, 8-byte big-endian bit length. -/
def sha1Pad (msg : List Nat) : List Nat :=
  let ml := msg.length * 8
  let k := (119 - msg.length % 64) % 64
  msg ++ [0x80] ++ List.replicate k 0 ++
    ((List.range 8).map (fun i => (ml >>> (8 * (7 - i))) &&& 0xFF))

/-- Split a byte list into 64-byte chunks (structural recursion on a fuel
argument so that the kernel can evaluate it; `chunks64` supplies enough fuel). -/
def chunks64Fuel : Nat → List Nat → List (List Nat)
  | 0, _ => []
  | _ + 1, [] => []
  | fuel + 1, a :: rest => (a :: rest).take 64 :: chunks64Fuel fuel ((a :: rest).drop 64)

/-- Split a byte list into 64-byte chunks. -/
def chunks64 (l : List Nat) : List (List Nat) :=
  chunks64Fuel l.length l

/-- Big-endian 32-bit words of a byte list. -/
def toWords32 : List Nat → List Nat
  | a :: b :: c :: d :: rest =>
    ((((a <<< 8) ||| b) <<< 8 ||| c) <<< 8 ||| d) :: toWords32 rest
  | _ => []

/-- Extend the 16 schedule words to 80, keeping the list reversed. -/
def sha1ExtendRev (rev : List Nat) : Nat → List Nat
  | 0 => rev
  | n + 1 =>
    let w := rotl32 1 ((rev.getD 2 0) ^^^ (rev.getD 7 0) ^^^ (rev.getD 13 0) ^^^ (rev.getD 15 0))
    sha1ExtendRev (w :: rev) n

/-- One SHA-1 round applied to the state `(a, b, c, d, e)`. -/
def sha1Round (st : Nat × Nat × Nat × Nat × Nat) (i w : Nat) : Nat × Nat × Nat × Nat × Nat :=
  let (a, b, c, d, e) := st
  let fk : Nat × Nat :=
    if i < 20 then ((b &&& c) ||| ((b ^^^ 0xFFFFFFFF) &&& d), 0x5A827999)
    else if i < 40 then (b ^^^ c ^^^ d, 0x6ED9EBA1)
    else if i < 60 then ((b &&& c) ||| (b &&& d) ||| (c &&& d), 0x8F1BBCDC)
    else (b ^^^ c ^^^ d, 0xCA62C1D6)
  let temp := (rotl32 5 a + fk.1 + e + fk.2 + w) % 4294967296
  (temp, a, rotl32 30 b, c, d)

/-- Compress one 64-byte chunk into the running hash state. -/
def sha1Chunk (h : Nat × Nat × Nat × Nat × Nat) (chunk : List Nat) : Nat × Nat × Nat × Nat × Nat :=
  let ws := (sha1ExtendRev (toWords32 chunk).reverse 64).reverse
  let (h0, h1, h2, h3, h4) := h
  let st := ((List.range 80).zip ws).foldl (fun st iw => sha1Round st iw.1 iw.2) (h0, h1, h2, h3, h4)
  ((h0 + st.1) % 4294967296, (h1 + st.2.1) % 4294967296, (h2 + st.2.2.1) % 4294967296,
   (h3 + st.2.2.2.1) % 4294967296, (h4 + st.2.2.2.2) % 4294967296)

/-- SHA-1 digest of a byte list, as five 32-bit words. -/
def sha1Digest (msg : List Nat) : Nat × Nat × Nat × Nat × Nat :=
  (chunks64 (sha1Pad msg)).foldl sha1Chunk
    (0x67452301, 0xEFCDAB89, 0x98BADCFE, 0x10325476, 0xC3D2E1F0)

/-- Fixed-width lowercase hexadecimal rendering of a number. -/
def hexFixed : Nat → Nat → List Char
  | 0, _ => []
  | w + 1, n => hexFixed w (n / 16) ++ [Nat.digitChar (n % 16)]

/-- Model of `hashlib.sha1(...).hexdigest()` as a character list (40 hex chars). -/
def sha1HexChars (msg : List Nat) : List Char :=
  let (h0, h1, h2, h3, h4) := sha1Digest msg
  hexFixed 8 h0 ++ hexFixed 8 h1 ++ hexFixed 8 h2 ++ hexFixed 8 h3 ++ hexFixed 8 h4

/-- Model of `validator._sha1`: `hashlib.sha1(s.encode("utf-8")).hexdigest()[:16]`. -/
def _sha1 (s : String) : String :=
  String.mk ((sha1HexChars (utf8Bytes s)).take 16)

/-! ## Python's string order and `sorted`

Python compares strings lexicographically by code point; `sorted` is the
(unique) stable sort for `<=`.  `List.insertionSort` with the reflexive
code-point order computes exactly that sort. -/

/-- Strict code-point lexicographic order on character lists (Python `<`). -/
def pyStrLtChars : List Char → List Char → Bool
  | [], [] => false
  | [], _ :: _ => true
  | _ :: _, [] => false
  | a :: as, b :: bs =>
    if a.toNat < b.toNat then true
    else if b.toNat < a.toNat then false
    else pyStrLtChars as bs

/-- Python `a <= b` on strings. -/
def pyStrLe (a b : String) : Bool :=
  !(pyStrLtChars b.data a.data)

/-- Python `sorted` on a list of strings. -/
def pySortedStr (l : List String) : List String :=
  List.insertionSort (fun a b => pyStrLe a b = true) l

/-! ## Set IDs (`validator.DicomValidator.run`, `ParrecValidator.run`,
`NiftiValidator.run`) -/

/-- DICOM: `set_id = "set-" + _sha1(f"{study_uid}|{series_uid}")`. -/
def setIdDicom (studyUid seriesUid : String) : String :=
  "set-" ++ _sha1 (studyUid ++ "|" ++ seriesUid)

/-- PAR/REC: `set_id = "set-" + _sha1(f"{par_file.name}|{rec_file.name}")`. -/
def setIdParrec (parName recName : String) : String :=
  "set-" ++ _sha1 (parName ++ "|" ++ recName)

/-- NIfTI: `fnames = "|".join(sorted(f.name for f in files));
set_id = "set-" + _sha1(f"{stem}|{fnames}")`. -/
def setIdNifti (stem : String) (fileNames : List String) : String :=
  let fnames := String.intercalate "|" (pySortedStr fileNames)
  "set-" ++ _sha1 (stem ++ "|" ++ fnames)

/-! ## Modality mapper (`modality_mapper.py`)

DICOM metadata extraction is I/O; a file is modelled by its name together
with the normalized-key metadata dictionary that `_get_dicom_metadata`
would produce for it. -/

/-- A metadata dictionary (normalized key → stringified value). -/
abbrev Metadata := List (String × String)

/-- Dictionary lookup (`key in metadata` / `metadata[key]`). -/
def mdLookup (md : Metadata) (k : String) : Option String :=
  (md.find? (fun kv => kv.1 = k)).map (·.2)

/-- Key normalization used for both rule keys and metadata keys:
`remove_special_chars(remove_all_whitespace(key)).lower()`. -/
def normalizeKey (k : String) : String :=
  strToLower (remove_special_chars (remove_all_whitespace k))

/-- One rule of the modality table: a dict `normalizedKey → [acceptedValue, …]`. -/
abbrev ModalityRule := List (String × List String)

/-- The modality rule table: `modality → [rule, …]`, in declaration order. -/
abbrev ModalityTable := List (String × List ModalityRule)

/-- Does one rule fire on the metadata?  (`normalized_key in dicom_metadata`
and `dicom_value in expected_values`, over the rule's items in order.) -/
def ruleMatches (md : Metadata) (rule : ModalityRule) : Bool :=
  rule.any (fun kv =>
    match mdLookup md (normalizeKey kv.1) with
    | some v => kv.2.contains v
    | none => false)

/-- Does any rule of one modality fire on the metadata? -/
def modalityRulesMatch (md : Metadata) (rules : List ModalityRule) : Bool :=
  rules.any (ruleMatches md)

/-- Model of `DicomMapper._determine_modality` (also `ParrecMapper`'s, which is
textually identical): the first modality, in table declaration order, one of
whose rules fires, wins; otherwise `'unknown'`. -/
def _determine_modality (table : ModalityTable) (md : Metadata) : String :=
  match table.find? (fun e => modalityRulesMatch md e.2) with
  | some e => e.1
  | none => "unknown"

/-- Outcome of opening and JSON-decoding the modality rule-table file. -/
inductive LoadOutcome where
  | ok (table : ModalityTable)
  | fileNotFound
  | jsonDecodeError

/-- Model of `DicomMapper._load_modality_mapping`: `FileNotFoundError` and
`json.JSONDecodeError` are caught and degrade to the empty table `{}`. -/
def _load_modality_mapping : LoadOutcome → ModalityTable
  | .ok t => t
  | .fileNotFound => []
  | .jsonDecodeError => []

/-- File filter in `DicomMapper.get_path_mapping`: not `.json`, and either
`.dcm` or extensionless. -/
def isDicomCandidate (fileName : String) : Bool :=
  !(strEndsWith (strToLower fileName) ".json") &&
    (strEndsWith (strToLower fileName) ".dcm" || !(strContainsChar fileName '.'))

/-- Model of `DicomMapper.get_path_mapping`: per set directory (given as its path and
its walked files with their metadata), determine every file's modality; more
than one distinct modality raises `ValueError`; a set without DICOM files is
skipped with a warning. -/
def dicomGetPathMapping (table : ModalityTable) :
    List (String × List (String × Metadata)) → Except String (List (String × String))
  | [] => .ok []
  | (setPath, files) :: rest =>
    let dicomFiles := files.filter (fun f => isDicomCandidate f.1)
    if dicomFiles.isEmpty then
      dicomGetPathMapping table rest
    else
      let modalities := (dicomFiles.map (fun f => _determine_modality table f.2)).eraseDups
      if modalities.length > 1 then
        .error ("Multiple modalities found in " ++ setPath)
      else
        match dicomGetPathMapping table rest with
        | .error e => .error e
        | .ok m => .ok ((setPath, modalities.headD "unknown") :: m)

/-- Extension stripping of `NiftiMapper._extract_modality_from_filename`. -/
def niftiNameWithoutExt (filename : String) : String :=
  if strEndsWith filename ".nii.gz" then strDropRight filename 7
  else if strEndsWith filename ".nii" then strDropRight filename 4
  else filename

/-- The underscore tokens of the extension-stripped NIfTI file name. -/
def niftiNameParts (filename : String) : List String :=
  pySplitChar (niftiNameWithoutExt filename) '_'

/-- Model of `NiftiMapper._extract_modality_from_filename` (continued).  The
`ValueError` raised for a final token other than `'0001'` is caught by the
function's own `except`, which logs and returns `'unknown'`. -/
def _extract_modality_from_filename (filename : String) : String :=
  let parts := niftiNameParts filename
  if parts.length < 4 then "unknown"
  else if parts.getLastD "" ≠ "0001" then "unknown"
  else parts.getD (parts.length - 2) ""

/-! ## Glob matching (`glob.glob` / `pathlib.Path.glob`)

The patterns produced by this pipeline contain only the `*` wildcard
(plus literal characters); `?` is also supported here.  A name starting
with `.` is only matched by a pattern starting with `.`. -/

/-- Fuel-based glob matcher (`*` and `?`); fuel `|pat| + |name| + 1` suffices
since every recursive call shrinks `|pat| + |name|`. -/
def globMatchFuel : Nat → List Char → List Char → Bool
  | 0, _, _ => false
  | _ + 1, [], [] => true
  | fuel + 1, '*' :: ps, [] => globMatchFuel fuel ps []
  | fuel + 1, '*' :: ps, c :: ts =>
    globMatchFuel fuel ps (c :: ts) || globMatchFuel fuel ('*' :: ps) ts
  | fuel + 1, '?' :: ps, _ :: ts => globMatchFuel fuel ps ts
  | fuel + 1, p :: ps, t :: ts => p = t && globMatchFuel fuel ps ts
  | _ + 1, _ :: _, [] => false
  | _ + 1, [], _ :: _ => false

/-- Glob match of a pattern against a whole name. -/
def globMatch (pat name : List Char) : Bool :=
  globMatchFuel (pat.length + name.length + 1) pat name

/-- Glob match including the hidden-file rule. -/
def globNameMatches (pat name : String) : Bool :=
  if strStartsWith name "." && !(strStartsWith pat ".") then false
  else globMatch pat.data name.data

/-- Model of `glob.glob(os.path.join(dir, pattern))`, over the directory's basenames. -/
def pyGlobNames (names : List String) (pat : String) : List String :=
  names.filter (globNameMatches pat)

/-! ## Name builder (`name_builder.py`)

The filesystem is modelled by `fs : String → Option (List String)`
(directory path → basenames if the directory exists), and
`get_phase_encoding_direction` (a DICOM-header read) by
`ped : String → Option String`. -/

/-- Model of `os.path.join` with `/`. -/
def joinPath (parts : List String) : String :=
  String.intercalate "/" parts

/-- The `run-NN` extraction loop of `get_base_run_number`: over the
filename's `_`-separated parts, the first part starting with `run-` whose
`split('-')[1]` parses as an int wins; parse failures continue the scan. -/
def runNumOfParts : List String → Option Int
  | [] => none
  | p :: rest =>
    if strStartsWith p "run-" then
      match pyInt? ((pySplitChar p '-').getD 1 "") with
      | some n => some n
      | none => runNumOfParts rest
    else runNumOfParts rest

/-- Model of `name_builder.get_base_run_number`. -/
def get_base_run_number (fs : String → Option (List String))
    (modality subjectId trialIndex rawPath dataType : String) : Int :=
  let targetDir := joinPath [rawPath, "sub-" ++ subjectId, "ses-" ++ trialIndex, dataType]
  match fs targetDir with
  | none => 1
  | some names =>
    let existingFiles := pyGlobNames names ("*_" ++ modality ++ ".nii.gz")
    if existingFiles.isEmpty then 1
    else
      match existingFiles.filterMap (fun f => runNumOfParts (pySplitChar f '_')) with
      | [] => 1
      | n :: ns => ns.foldl max n + 1

/-- The BIDS suffix/entity rule table
(`{dataType: {modality: {entityFlag: …}}}`); entity rules are kept as the
list of entity-flag keys. -/
abbrev SuffixRules := List (String × List (String × List String))

/-- Model of `name_builder.find_data_type`: first data type whose modality dict has
the modality as a key. -/
def find_data_type (modality : String) (rules : SuffixRules) : Option String :=
  (rules.find? (fun dt => (dt.2.find? (fun m => m.1 = modality)).isSome)).map (·.1)

/-- Model of `suffix_rules[data_type][modality]`. -/
def entityRulesFor (rules : SuffixRules) (dataType modality : String) : List String :=
  match rules.find? (fun dt => dt.1 = dataType) with
  | none => []
  | some dt =>
    match dt.2.find? (fun m => m.1 = modality) with
    | none => []
    | some m => m.2

/-- The `task` sub-config of the job (`structured_config['task']`). -/
structure TaskInfo where
  isFunc : Bool
  option : String

/-- Model of `name_builder.build_bids_filename` (the `run_number is None` fallback is
unreachable from `create_bids_mapping`, which always passes a run number). -/
def build_bids_filename (ped : String → Option String)
    (sourceFolder modality : String) (entityRules : List String)
    (subjectId trialIndex : String) (taskInfo : TaskInfo)
    (runNumber : String) : Except String String :=
  let entities := ["sub-" ++ subjectId, "ses-" ++ trialIndex]
  let taskStep : Except String (List String) :=
    if entityRules.contains "task" then
      if !taskInfo.isFunc then
        .error ("Task entity required for " ++ modality ++ " but isFunc=False")
      else if taskInfo.option = "" then
        .error ("Task option is empty for " ++ modality)
      else .ok (entities ++ ["task-" ++ taskInfo.option])
    else .ok entities
  match taskStep with
  | .error e => .error e
  | .ok entities =>
    let entities := if entityRules.contains "acq" then entities ++ ["acq-%u"] else entities
    let entities :=
      if entityRules.contains "dir" then
        match ped sourceFolder with
        | some d => entities ++ ["dir-" ++ d]
        | none => entities
      else entities
    let entities := entities ++ ["run-" ++ runNumber]
    let entities := entities ++ [modality]
    .ok (String.intercalate "_" entities ++ ".nii.gz")

/-- The per-job run counter key
`f"{subject_id}_{trial_index}_{data_type}_{modality}"`. -/
def modalityKey (subjectId trialIndex dataType modality : String) : String :=
  subjectId ++ "_" ++ trialIndex ++ "_" ++ dataType ++ "_" ++ modality

/-- Association-list read of `modality_run_counter`. -/
def lookupCounter (m : List (String × Int)) (k : String) : Option Int :=
  (m.find? (fun kv => kv.1 = k)).map (·.2)

/-- Association-list write of `modality_run_counter`. -/
def setCounter : List (String × Int) → String → Int → List (String × Int)
  | [], k, v => [(k, v)]
  | (k', v') :: rest, k, v =>
    if k' = k then (k, v) :: rest else (k', v') :: setCounter rest k v

/-- The loop of `create_bids_mapping` over `path_mapping.items()`.  Besides
the produced mapping it returns the issuance log `[(modality_key, run)]`, in
iteration order, which the run-numbering theorems inspect. -/
def createBidsMappingAux (fs : String → Option (List String))
    (ped : String → Option String) (suffixRules : SuffixRules)
    (subjectId trialIndex rawPath : String) (taskInfo : TaskInfo) :
    List (String × String) → List (String × Int) →
      Except String (List (String × String) × List (String × Int))
  | [], _ => .ok ([], [])
  | (sourceFolder, modality) :: rest, counters =>
    match find_data_type modality suffixRules with
    | none => .error ("Unknown modality: " ++ modality)
    | some dataType =>
      let entityRules := entityRulesFor suffixRules dataType modality
      let key := modalityKey subjectId trialIndex dataType modality
      let counters1 :=
        match lookupCounter counters key with
        | some _ => counters
        | none =>
          setCounter counters key
            (get_base_run_number fs modality subjectId trialIndex rawPath dataType)
      let currentRun := (lookupCounter counters1 key).getD 0
      match build_bids_filename ped sourceFolder modality entityRules subjectId
          trialIndex taskInfo (zero_fill currentRun) with
      | .error e => .error e
      | .ok bidsFilename =>
        let counters2 := setCounter counters1 key (currentRun + 1)
        match createBidsMappingAux fs ped suffixRules subjectId trialIndex rawPath
            taskInfo rest counters2 with
        | .error e => .error e
        | .ok (m, log) =>
          .ok ((sourceFolder,
                joinPath [rawPath, "sub-" ++ subjectId, "ses-" ++ trialIndex,
                  dataType, bidsFilename]) :: m,
               (key, currentRun) :: log)

/-- Model of `name_builder.create_bids_mapping` (mapping part). -/
def create_bids_mapping (fs : String → Option (List String))
    (ped : String → Option String) (suffixRules : SuffixRules)
    (subjectId trialIndex rawPath : String) (taskInfo : TaskInfo)
    (pathMapping : List (String × String)) :
    Except String (List (String × String) × List (String × Int)) :=
  createBidsMappingAux fs ped suffixRules subjectId trialIndex rawPath taskInfo
    pathMapping []

/-- The run-counter key an entry of `path_mapping` is accounted under. -/
def keyOfEntry (suffixRules : SuffixRules) (subjectId trialIndex : String)
    (e : String × String) : String :=
  modalityKey subjectId trialIndex ((find_data_type e.2 suffixRules).getD "") e.2

/-- The entries of `path_mapping` accounted under one run-counter key, in
iteration order. -/
def entriesForKey (suffixRules : SuffixRules) (subjectId trialIndex : String)
    (k : String) (entries : List (String × String)) : List (String × String) :=
  entries.filter (fun e => keyOfEntry suffixRules subjectId trialIndex e = k)

/-- The run numbers issued under one key, in issuance order. -/
def runsForKey (k : String) (log : List (String × Int)) : List Int :=
  (log.filter (fun r => r.1 = k)).map (·.2)

/-- The first run number the counter state will issue for a key: the stored
counter if the key is known, otherwise the base number scanned from disk for
the first entry carrying the key. -/
def startRunFor (fs : String → Option (List String)) (suffixRules : SuffixRules)
    (subjectId trialIndex rawPath : String) (counters : List (String × Int))
    (k : String) (entries : List (String × String)) : Int :=
  match lookupCounter counters k with
  | some v => v
  | none =>
    match (entriesForKey suffixRules subjectId trialIndex k entries).head? with
    | some e => get_base_run_number fs e.2 subjectId trialIndex rawPath
        ((find_data_type e.2 suffixRules).getD "")
    | none => 0

/-! ## Separator (`separator.py`) -/

/-- One entry of `bdsp_file_list.json`'s `path` array. -/
structure ManifestItem where
  index : Int
  file_path : String
deriving DecidableEq

/-- Model of `PreWork._load_json_index`: entries sorted by `index` (stably). -/
def _load_json_index (items : List ManifestItem) : List ManifestItem :=
  List.insertionSort (fun a b => a.index ≤ b.index) items

/-- NIfTI stem/extension split used by `NiftiSeparator.run`. -/
def niftiStemExt (name : String) : String × String :=
  if strEndsWith (strToLower name) ".nii.gz" then (strDropRight name 7, ".nii.gz")
  else (pyStem name, pySuffix name)

/-- Model of `NiftiSeparator.run`, up to and including the rename decision.  The
manifest is `none` when `bdsp_file_list.json` does not exist; `filesOnDisk`
are the basenames present in the work directory.  On success the produced
new file name is returned. -/
def niftiSeparatorRun (setId : String) (manifest? : Option (List ManifestItem))
    (filesOnDisk : List String) : Except String String :=
  if setId = "" then .error "set_id는 필수 파라미터입니다."
  else
    match manifest? with
    | none => .error "bdsp_file_list.json 없음"
    | some items =>
      let fileList := _load_json_index items
      if fileList.isEmpty then .error "JSON index에서 파일을 불러오지 못했습니다."
      else if fileList.length > 1 then
        .error "NIfTI는 파일이 1개만 있어야 합니다."
      else if fileList.length = 0 then .error "처리할 NIfTI 파일이 없습니다."
      else
        let item := fileList.headD ⟨0, ""⟩
        if item.index ≥ 2 then
          .error "NIfTI 파일의 index는 1이어야 합니다."
        else
          let srcName := pyBasename item.file_path
          if !(filesOnDisk.contains srcName) then .error "원본 파일 없음"
          else
            let se := niftiStemExt srcName
            let suffix :=
              if strContainsChar se.1 '_' then (pySplitChar se.1 '_').getLastD se.1
              else "NIFTI"
            .ok ("item_" ++ setId ++ "_" ++ suffix ++ "_0001" ++ se.2)

/-! ## PAR/REC structural validation (`validator.validate_parrec_files`)

`parse_par_header` / `parse_image_information` are text parsing over file
contents; their results (the header dictionary and the image-information
rows) are the inputs of the model, together with the REC file's byte size. -/

/-- The header dictionary produced by `parse_par_header` (a field is `none`
when the corresponding line was absent). -/
structure ParHeader where
  scan_resolution_x : Option Int := none
  scan_resolution_y : Option Int := none
  max_slices : Option Int := none
  max_dynamics : Option Int := none
  max_echoes : Option Int := none
  max_phases : Option Int := none
deriving DecidableEq

/-- Python `if not header_info` (empty dict). -/
def ParHeader.isEmptyDict (h : ParHeader) : Bool :=
  h.scan_resolution_x.isNone && h.scan_resolution_y.isNone &&
  h.max_slices.isNone && h.max_dynamics.isNone &&
  h.max_echoes.isNone && h.max_phases.isNone

/-- One row of the IMAGE INFORMATION section. -/
structure ImageRow where
  slice : Int
  echo : Int
  dynamic : Int
  phase : Int
  type : Int
  sequence : Int
  index : Int
  bit_depth : Int
  scan_percent : Int
  recon_x : Int
  recon_y : Int
deriving DecidableEq

/-- Model of `check_header_validity`: returned error messages. -/
def check_header_validity (h : ParHeader) : List String :=
  let check := fun (name : String) (v : Option Int) =>
    match v with
    | none => ["필수 헤더 정보 누락: " ++ name]
    | some x => if x ≤ 0 then ["잘못된 " ++ name ++ " 값"] else []
  check "max_slices" h.max_slices ++ check "max_dynamics" h.max_dynamics ++
    check "max_echoes" h.max_echoes ++ check "max_phases" h.max_phases

/-- Model of `range(1, n + 1)`. -/
def intRange1 (n : Int) : List Int :=
  (List.range n.toNat).map (fun i => (i : Int) + 1)

/-- Model of `check_data_completeness`: `(errors, warnings)`. -/
def check_data_completeness (h : ParHeader) (rows : List ImageRow) :
    List String × List String :=
  if rows.isEmpty then (["IMAGE INFORMATION 데이터가 없음"], [])
  else
    let expected := (h.max_slices.getD 0) * (h.max_dynamics.getD 0) *
      (h.max_echoes.getD 1) * (h.max_phases.getD 1)
    let actual : Int := rows.length
    let errs := if actual ≠ expected then ["이미지 수 불일치"] else []
    let expectedCombos :=
      (intRange1 (h.max_slices.getD 0)).flatMap (fun s =>
        (intRange1 (h.max_dynamics.getD 0)).flatMap (fun d =>
          (intRange1 (h.max_echoes.getD 1)).flatMap (fun e =>
            (intRange1 (h.max_phases.getD 1)).map (fun p => (s, d, e, p)))))
    let actualCombos := rows.map (fun r => (r.slice, r.dynamic, r.echo, r.phase))
    let missing := expectedCombos.filter (fun c => !(actualCombos.contains c))
    let warns := if !missing.isEmpty then ["누락된 이미지 조합"] else []
    (errs, warns)

/-- Model of `check_file_size_consistency`: returned error messages
(`bit_depth // 8` is Python floor division). -/
def check_file_size_consistency (rows : List ImageRow) (recSize : Int) :
    List String :=
  match rows with
  | [] => []
  | first :: _ =>
    let bytesPerPixel := Int.fdiv first.bit_depth 8
    let expected := first.recon_x * first.recon_y * (rows.length : Int) * bytesPerPixel
    if recSize ≠ expected then ["REC 파일 크기 불일치"] else []

/-- Model of `check_index_continuity`: a *warning* (not an error) when the sorted
indices differ from `range(len(image_info))`. -/
def check_index_continuity (rows : List ImageRow) : List String :=
  let indices := List.insertionSort (fun a b => a ≤ b) (rows.map (·.index))
  let expected := (List.range rows.length).map (fun i => (i : Int))
  if indices ≠ expected then ["인덱스가 연속적이지 않음"] else []

/-- Model of `check_metadata_consistency`: *warnings* for non-homogeneous
`bit_depth` / `recon_x` / `recon_y`. -/
def check_metadata_consistency (rows : List ImageRow) : List String :=
  if rows.isEmpty then []
  else
    let f := fun (name : String) (vals : List Int) =>
      if vals.eraseDups.length > 1 then [name ++ " 값이 일관되지 않음"] else []
    f "bit_depth" (rows.map (·.bit_depth)) ++ f "recon_x" (rows.map (·.recon_x)) ++
      f "recon_y" (rows.map (·.recon_y))

/-- Validation result (`results` dict; the `success` and `info` entries are
log-only and omitted). -/
structure VResults where
  valid : Bool
  errors : List String
  warnings : List String
deriving DecidableEq

/-- The content part of `validate_parrec_files` (both files exist; parsing
already performed).  `valid` is true exactly when `errors` stays empty. -/
def validate_parrec_core (h : ParHeader) (rows : List ImageRow) (recSize : Int) :
    VResults :=
  if h.isEmptyDict then
    { valid := false, errors := ["PAR 파일 헤더 파싱 실패"], warnings := [] }
  else if rows.isEmpty then
    { valid := false, errors := ["IMAGE INFORMATION 섹션 파싱 실패"], warnings := [] }
  else
    let e1 := check_header_validity h
    let ew := check_data_completeness h rows
    let e3 := check_file_size_consistency rows recSize
    let w4 := check_index_continuity rows
    let w5 := check_metadata_consistency rows
    let errs := e1 ++ ew.1 ++ e3
    { valid := errs.isEmpty, errors := errs, warnings := ew.2 ++ w4 ++ w5 }

/-- Model of `ParrecValidator.run`'s pair grouping: fold the manifested file names
into `stem → (par?, rec?)`, in first-appearance order. -/
def updateParrecPair (acc : List (String × Option String × Option String))
    (stem : String) (isPar : Bool) (name : String) :
    List (String × Option String × Option String) :=
  match acc with
  | [] => [(stem, if isPar then (some name, none) else (none, some name))]
  | (s, pr) :: rest =>
    if s = stem then
      (s, if isPar then (some name, pr.2) else (pr.1, some name)) :: rest
    else (s, pr) :: updateParrecPair rest stem isPar name

/-- The `pairs` dict of `ParrecValidator.run`. -/
def parrecPairs (names : List String) :
    List (String × Option String × Option String) :=
  names.foldl (fun acc name =>
    let suf := strToLower (pySuffix name)
    if suf = ".par" || suf = ".rec" then
      updateParrecPair acc (pyStem name) (suf = ".par") name
    else acc) []

/-- The loop body of `ParrecValidator.run`: skip a pair with a missing
member (`Missing PAR/REC pair`), skip a pair whose content fails
`validate_parrec_files`, and otherwise append the produced
`(target_dir, set_id)`. -/
def parrecStep (parData : String → Option (ParHeader × List ImageRow × Int))
    (validDataPath : String) (acc : List (String × String))
    (p : String × Option String × Option String) : List (String × String) :=
  match p.2.1, p.2.2 with
  | some parName, some recName =>
    let contentOk :=
      match parData parName with
      | none => false
      | some d => (validate_parrec_core d.1 d.2.1 d.2.2).valid
    if contentOk then
      acc ++ [(validDataPath ++ "/" ++ setIdParrec parName recName,
               setIdParrec parName recName)]
    else acc
  | _, _ => acc

/-- The contribution of one stem's pair to the results of
`ParrecValidator.run`, as an optional entry. -/
def parrecPairResult (parData : String → Option (ParHeader × List ImageRow × Int))
    (validDataPath : String) (p : String × Option String × Option String) :
    Option (String × String) :=
  match p.2.1, p.2.2 with
  | some parName, some recName =>
    let contentOk :=
      match parData parName with
      | none => false
      | some d => (validate_parrec_core d.1 d.2.1 d.2.2).valid
    if contentOk then
      some (validDataPath ++ "/" ++ setIdParrec parName recName,
            setIdParrec parName recName)
    else none
  | _, _ => none

/-- Model of `ParrecValidator.run` after the manifest read: pairs with a missing
member are skipped, pairs whose PAR/REC content fails
`validate_parrec_files` are skipped, the rest produce
`(valid_data_path / set_id, set_id)`; `None` when no pair survives.
`parData name` is the parsed content (header, rows, REC byte size) of the
PAR file, `none` when unreadable. -/
def parrecValidatorRun
    (parData : String → Option (ParHeader × List ImageRow × Int))
    (validDataPath : String) (names : List String) :
    Option (List (String × String)) :=
  let results := (parrecPairs names).foldl (parrecStep parData validDataPath) []
  if results.isEmpty then none else some results

/-! ## Raw converter (`dcm2nii_parser.py`) -/

/-- Does an underscore-free token have the shape
`[a-zA-Z]+-[^_]*%[^_]*` (letters, a dash, then a `%` somewhere)?  This is
exactly when the regex `_[a-zA-Z]+-[^_]*%[^_]*` matches at an `_`
immediately preceding the token. -/
def entTokenHasPercent (tok : List Char) : Bool :=
  let letters := tok.takeWhile (fun c => c.isAlpha)
  let r1 := tok.dropWhile (fun c => c.isAlpha)
  !letters.isEmpty &&
    (match r1 with
     | '-' :: r2 => r2.contains '%'
     | _ => false)

/-- Regex match of `_[a-zA-Z]+-[^_]*%[^_]*` at the head of the list; returns
the remainder after the (greedy) match.  Both `[^_]*` pieces stop at the
next `_`, so the match consumes the whole underscore-free token after the
leading `_` and the remainder is empty or starts with `_`. -/
def matchEntity : List Char → Option (List Char)
  | '_' :: x =>
    if entTokenHasPercent (x.takeWhile (· ≠ '_')) then
      some (x.dropWhile (· ≠ '_'))
    else none
  | _ => none

/-- Model of `re.sub(pattern, '', filename)` scan: at each position, remove a match
(an `_`, letters, `-`, and the rest of the `%`-bearing token, exactly as
`matchEntity` decides) if one starts there, otherwise emit the character and
move on by one. -/
def removeEnt : List Char → List Char
  | [] => []
  | c :: rest =>
    if c = '_' ∧ entTokenHasPercent (rest.takeWhile (· ≠ '_')) = true then
      removeEnt (rest.dropWhile (· ≠ '_'))
    else c :: removeEnt rest
termination_by l => l.length
decreasing_by
  · have := (List.dropWhile_sublist (l := rest) (· ≠ '_')).length_le
    simp only [List.length_cons]
    omega
  · simp [List.length_cons]

/-- Model of `re.sub(r'_{2,}', '_', …)`: collapse every run of underscores to one
(a run of length one is left as is, which coincides). -/
def collapseU : List Char → List Char
  | [] => []
  | c :: rest =>
    if c = '_' then '_' :: collapseU (rest.dropWhile (· = '_'))
    else c :: collapseU rest
termination_by l => l.length
decreasing_by
  · have := (List.dropWhile_sublist (l := rest) (· = '_')).length_le
    simp only [List.length_cons]
    omega
  · simp [List.length_cons]

/-- Model of `str.strip('_')`. -/
def stripUnderscores (l : List Char) : List Char :=
  ((l.dropWhile (· = '_')).reverse.dropWhile (· = '_')).reverse

/-- Model of `dcm2nii_parser.clean_filename`. -/
def clean_filename (filename : String) : String :=
  String.mk (stripUnderscores (collapseU (removeEnt filename.data)))

/-- Does the string contain a match of the wildcard-entity pattern anywhere? -/
def hasPercentEntity (l : List Char) : Bool :=
  l.tails.any (fun t => (matchEntity t).isSome)

/-- Model of `process_nifti_files`' destination path: the cleaned file name under the
target directory (for a `.nii` source the copy is then gzip-compressed back
to the same `.nii.gz` name). -/
def process_nifti_target (rawPath rawFileOption : String) : String :=
  rawPath ++ "/" ++ clean_filename rawFileOption

/-- Model of `_percent_to_glob_pattern`: `re.sub(r'%[^_]*', '*', base)` — every `%`
with its run of following non-`_` characters becomes `*`. -/
def percentToGlobFuel : Nat → List Char → List Char
  | 0, _ => []
  | _ + 1, [] => []
  | fuel + 1, '%' :: rest => '*' :: percentToGlobFuel fuel (rest.dropWhile (· ≠ '_'))
  | fuel + 1, c :: rest => c :: percentToGlobFuel fuel rest

/-- Model of `_percent_to_glob_pattern` on strings. -/
def _percent_to_glob_pattern (s : String) : String :=
  String.mk (percentToGlobFuel s.data.length s.data)

/-- A file of the output directory with its modification time. -/
structure FsFile where
  name : String
  mtime : Int
deriving DecidableEq

/-- Model of `Path(raw_dir).glob(pattern)` over the directory's files. -/
def pyGlobFiles (files : List FsFile) (pat : String) : List FsFile :=
  files.filter (fun f => globNameMatches pat f.name)

/-- Model of `_resolve_actual_output`: glob for `.nii.gz`, fall back to `.nii`,
`FileNotFoundError` when nothing matches, most recently modified first when
several match (stable descending sort by mtime, then the first element). -/
def _resolve_actual_output (dirFiles : List FsFile)
    (filenameWithoutExt : String) : Except String FsFile :=
  let globBase := _percent_to_glob_pattern filenameWithoutExt
  let c1 := pyGlobFiles dirFiles (globBase ++ ".nii.gz")
  let candidates := if c1.isEmpty then pyGlobFiles dirFiles (globBase ++ ".nii") else c1
  match candidates with
  | [] => .error ("No output matched pattern: " ++ globBase ++ ".nii.gz")
  | [c] => .ok c
  | c :: cs =>
    .ok ((List.insertionSort (fun a b => b.mtime ≤ a.mtime) (c :: cs)).headD c)

/-! ### Order lemmas for `pyStrLtChars` -/

theorem char_eq_of_toNat_eq {a b : Char} (h : a.toNat = b.toNat) : a = b := by
  apply Char.ext
  apply UInt32.ext
  exact h

theorem pyStrLtChars_asymm :
    ∀ as bs, pyStrLtChars as bs = true → pyStrLtChars bs as = false
  | [], [] => by simp [pyStrLtChars]
  | [], _ :: _ => by simp [pyStrLtChars]
  | _ :: _, [] => by simp [pyStrLtChars]
  | a :: as, b :: bs => by
    simp only [pyStrLtChars]
    intro h
    by_cases h1 : a.toNat < b.toNat
    · simp [h1, Nat.lt_asymm h1]
    · by_cases h2 : b.toNat < a.toNat
      · simp [h1, h2] at h
      · simpa [h1, h2] using pyStrLtChars_asymm as bs (by simpa [h1, h2] using h)

theorem pyStrLtChars_eq_of_not :
    ∀ as bs, pyStrLtChars as bs = false → pyStrLtChars bs as = false → as = bs
  | [], [] => by simp
  | [], _ :: _ => by simp [pyStrLtChars]
  | _ :: _, [] => by simp [pyStrLtChars]
  | a :: as, b :: bs => by
    simp only [pyStrLtChars]
    intro h1 h2
    by_cases hab : a.toNat < b.toNat
    · simp [hab] at h1
    · by_cases hba : b.toNat < a.toNat
      · simp [hba, Nat.lt_asymm hba] at h2
      · have hc : a = b := char_eq_of_toNat_eq (by omega)
        have := pyStrLtChars_eq_of_not as bs (by simpa [hab, hba] using h1)
          (by simpa [hab, hba, hc] using h2)
        simp [hc, this]

theorem pyStrLtChars_trans :
    ∀ as bs cs, pyStrLtChars as bs = true → pyStrLtChars bs cs = true →
      pyStrLtChars as cs = true
  | _, [], [] => by simp [pyStrLtChars]
  | _, _ :: _, [] => by simp [pyStrLtChars]
  | [], _, _ :: _ => by simp [pyStrLtChars]
  | a :: as, [], _ :: _ => by simp [pyStrLtChars]
  | a :: as, b :: bs, c :: cs => by
    simp only [pyStrLtChars]
    intro h1 h2
    by_cases hab : a.toNat < b.toNat
    · by_cases hbc : b.toNat < c.toNat
      · simp [Nat.lt_trans hab hbc]
      · by_cases hcb : c.toNat < b.toNat
        · simp [hbc, hcb] at h2
        · have : b.toNat = c.toNat := by omega
          simp [this ▸ hab]
    · by_cases hba : b.toNat < a.toNat
      · simp [hab, hba] at h1
      · have hab' : a.toNat = b.toNat := by omega
        by_cases hbc : b.toNat < c.toNat
        · simp [hab' ▸ hbc]
        · by_cases hcb : c.toNat < b.toNat
          · simp [hbc, hcb] at h2
          · have hbc' : b.toNat = c.toNat := by omega
            have hac : ¬ a.toNat < c.toNat := by omega
            have hca : ¬ c.toNat < a.toNat := by omega
            simpa [hac, hca] using
              pyStrLtChars_trans as bs cs (by simpa [hab, hba] using h1)
                (by simpa [hbc, hcb] using h2)

instance pyStrLeIsTotal : IsTotal String (fun a b => pyStrLe a b = true) := by
  constructor
  intro a b
  by_cases h : pyStrLtChars b.data a.data = true
  · right
    simp [pyStrLe, pyStrLtChars_asymm _ _ h]
  · left
    simp [pyStrLe]
    simpa using h

instance pyStrLeIsTrans : IsTrans String (fun a b => pyStrLe a b = true) := by
  constructor
  intro a b c hab hbc
  simp only [pyStrLe, Bool.not_eq_true', Bool.not_eq_true] at hab hbc ⊢
  by_contra hca
  simp only [Bool.not_eq_false] at hca
  by_cases hbc2 : pyStrLtChars b.data c.data = true
  · have := pyStrLtChars_trans _ _ _ hbc2 hca
    simp [this] at hab
  · have : b.data = c.data := pyStrLtChars_eq_of_not _ _
      (by simpa using hbc2) hbc
    rw [← this] at hca
    simp [hca] at hab

instance pyStrLeIsAntisymm : IsAntisymm String (fun a b => pyStrLe a b = true) := by
  constructor
  intro a b hab hba
  simp only [pyStrLe, Bool.not_eq_true'] at hab hba
  have h := pyStrLtChars_eq_of_not a.data b.data hba hab
  cases a
  cases b
  exact congrArg String.mk h

/-- Python `sorted` is invariant under permutation of its input. -/
theorem pySortedStr_eq_of_perm {l l' : List String} (h : l.Perm l') :
    pySortedStr l = pySortedStr l' := by
  apply List.eq_of_perm_of_sorted
    (r := fun a b => pyStrLe a b = true)
  · exact (List.perm_insertionSort _ l).trans (h.trans (List.perm_insertionSort _ l').symm)
  · exact List.sorted_insertionSort _ l
  · exact List.sorted_insertionSort _ l'

/-! ### Hex digest shape -/

/-- A lowercase hexadecimal digit. -/
def isLowerHexDigit (c : Char) : Bool :=
  c.isDigit || (97 ≤ c.toNat && c.toNat ≤ 102)

theorem hexFixed_length : ∀ (w n : Nat), (hexFixed w n).length = w
  | 0, _ => rfl
  | w + 1, n => by
    simp [hexFixed, hexFixed_length w]

theorem hexFixed_hex : ∀ (w n : Nat), ∀ c ∈ hexFixed w n, isLowerHexDigit c = true
  | 0, _ => by simp [hexFixed]
  | w + 1, n => by
    intro c hc
    rcases List.mem_append.mp hc with h | h
    · exact hexFixed_hex w _ c h
    · have hlt : n % 16 < 16 := Nat.mod_lt _ (by norm_num)
      have : c = Nat.digitChar (n % 16) := by simpa using h
      subst this
      revert hlt
      have : ∀ m, m < 16 → isLowerHexDigit (Nat.digitChar m) = true := by decide
      exact this (n % 16)

theorem sha1HexChars_length (msg : List Nat) : (sha1HexChars msg).length = 40 := by
  unfold sha1HexChars
  rcases sha1Digest msg with ⟨h0, h1, h2, h3, h4⟩
  simp [hexFixed_length]

theorem sha1HexChars_hex (msg : List Nat) :
    ∀ c ∈ sha1HexChars msg, isLowerHexDigit c = true := by
  unfold sha1HexChars
  rcases sha1Digest msg with ⟨h0, h1, h2, h3, h4⟩
  intro c hc
  simp only [List.mem_append] at hc
  rcases hc with ((((h | h) | h) | h) | h) <;> exact hexFixed_hex 8 _ c h

theorem _sha1_length (s : String) : (_sha1 s).length = 16 := by
  show ((sha1HexChars (utf8Bytes s)).take 16).length = 16
  simp [List.length_take, sha1HexChars_length]

theorem _sha1_hex (s : String) : ∀ c ∈ (_sha1 s).data, isLowerHexDigit c = true := by
  intro c hc
  exact sha1HexChars_hex _ c (List.mem_of_mem_take hc)

/-! ### Claim C2 -/

/-- C2 (counterexample): the DICOM Set ID is *not* a hash of the *sorted*
pipe-joined identity strings — presenting the same two identity strings in
swapped roles yields a different Set ID, and the ID differs from the hash of
the sorted join. -/
theorem claimC2_counterexample :
    setIdDicom "B" "A" ≠ setIdDicom "A" "B" ∧
    setIdDicom "B" "A" ≠ "set-" ++ _sha1 ("A" ++ "|" ++ "B") := by
  constructor <;> (set_option maxRecDepth 1000000 in decide)

/-- C2 (amended): every Set ID is `set-` plus the first 16 characters of the
lowercase SHA-1 hex digest of the pipe-joined identity strings; only the
NIfTI file-name list is sorted before joining, so NIfTI Set IDs are
invariant under reordering of the file list, while the DICOM UID pair and
the PAR/REC file-name pair are joined in fixed role order. -/
theorem claimC2_amended :
    (∀ studyUid seriesUid : String,
      setIdDicom studyUid seriesUid = "set-" ++ _sha1 (studyUid ++ "|" ++ seriesUid)
      ∧ (_sha1 (studyUid ++ "|" ++ seriesUid)).length = 16
      ∧ ∀ c ∈ (_sha1 (studyUid ++ "|" ++ seriesUid)).data, isLowerHexDigit c = true)
    ∧ (∀ parName recName : String,
      setIdParrec parName recName = "set-" ++ _sha1 (parName ++ "|" ++ recName))
    ∧ (∀ stem : String, ∀ names names' : List String, names.Perm names' →
      setIdNifti stem names = setIdNifti stem names') := by
  refine ⟨fun su se => ⟨rfl, _sha1_length _, _sha1_hex _⟩, fun p r => rfl, ?_⟩
  intro stem names names' hperm
  unfold setIdNifti
  rw [pySortedStr_eq_of_perm hperm]

/-- C2 witness: the amended theorem applied at concrete inputs. -/
theorem claimC2_witness :
    setIdNifti "item" ["b", "a"] = setIdNifti "item" ["a", "b"]
    ∧ (_sha1 ("A" ++ "|" ++ "B")).length = 16 :=
  ⟨claimC2_amended.2.2 "item" ["b", "a"] ["a", "b"] (List.Perm.swap "a" "b" []),
   (claimC2_amended.1 "A" "B").2.1⟩

/-! ### Claim C9 -/

/-- C9 (confirmed): a missing rule-table file or malformed JSON degrades to
the empty rule table, under which every file's metadata resolves to the
modality `unknown`. -/
theorem claimC9 : ∀ md : Metadata,
    _load_modality_mapping .fileNotFound = []
    ∧ _load_modality_mapping .jsonDecodeError = []
    ∧ _determine_modality (_load_modality_mapping .fileNotFound) md = "unknown"
    ∧ _determine_modality (_load_modality_mapping .jsonDecodeError) md = "unknown" := by
  intro md
  exact ⟨rfl, rfl, rfl, rfl⟩

/-! ### Claim C8 -/

/-- C8 (confirmed): with at least 4 underscore tokens and final token
`0001`, the second-to-last token is returned; otherwise (fewer tokens, or a
different final token) the extraction yields `unknown` without raising. -/
theorem claimC8 (filename : String) :
    (4 ≤ (niftiNameParts filename).length →
      (niftiNameParts filename).getLastD "" = "0001" →
      _extract_modality_from_filename filename =
        (niftiNameParts filename).getD ((niftiNameParts filename).length - 2) "")
    ∧ ((niftiNameParts filename).length < 4 ∨
        (niftiNameParts filename).getLastD "" ≠ "0001" →
      _extract_modality_from_filename filename = "unknown") := by
  unfold _extract_modality_from_filename
  constructor
  · intro h4 hlast
    rw [if_neg (Nat.not_lt.mpr h4), if_neg (not_not_intro hlast)]
  · intro h
    rcases h with h | h
    · rw [if_pos h]
    · by_cases h4 : (niftiNameParts filename).length < 4
      · rw [if_pos h4]
      · rw [if_neg h4, if_pos h]

/-- C8 witness: a well-formed name yields its modality token, a short name
yields `unknown`. -/
theorem claimC8_witness :
    _extract_modality_from_filename "item_h_T1w_0001.nii.gz" =
      (niftiNameParts "item_h_T1w_0001.nii.gz").getD
        ((niftiNameParts "item_h_T1w_0001.nii.gz").length - 2) ""
    ∧ _extract_modality_from_filename "x_y.nii" = "unknown" :=
  ⟨(claimC8 "item_h_T1w_0001.nii.gz").1 (by decide) (by decide),
   (claimC8 "x_y.nii").2 (Or.inl (by decide))⟩

/-! ### Claim C4 -/

/-- C4 (confirmed): rule matching is order-sensitive — when the metadata
matches rules of two modalities and no earlier modality matches, the one
declared earlier in the table is returned. -/
theorem claimC4 (md : Metadata)
    (pre mid post : List (String × List ModalityRule))
    (A B : String) (rulesA rulesB : List ModalityRule)
    (hpre : ∀ e ∈ pre, modalityRulesMatch md e.2 = false)
    (hA : modalityRulesMatch md rulesA = true)
    (hB : modalityRulesMatch md rulesB = true) :
    _determine_modality (pre ++ (A, rulesA) :: mid ++ (B, rulesB) :: post) md = A := by
  induction pre with
  | nil =>
    unfold _determine_modality
    simp [List.find?_cons, hA]
  | cons e es ih =>
    have he : modalityRulesMatch md e.2 = false := hpre e (List.mem_cons_self _ _)
    have ih' := ih (fun x hx => hpre x (List.mem_cons_of_mem _ hx))
    unfold _determine_modality at ih' ⊢
    simpa [List.find?_cons, he] using ih'

/-- C4 witness: two modalities whose rules both fire; the earlier one wins. -/
theorem claimC4_witness :
    _determine_modality
      [("T1w", [[("SeriesDescription", ["X"])]]),
       ("T2w", [[("SeriesDescription", ["X"])]])]
      [("seriesdescription", "X")] = "T1w" :=
  claimC4 [("seriesdescription", "X")] [] [] [] "T1w" "T2w"
    [[("SeriesDescription", ["X"])]] [[("SeriesDescription", ["X"])]]
    (by simp) (by decide) (by decide)

/-! ### Claim C3 -/

/-- The distinct modalities of one set directory's (filtered) files. -/
def setDistinctModalities (table : ModalityTable)
    (files : List (String × Metadata)) : List String :=
  ((files.filter (fun f => isDicomCandidate f.1)).map
    (fun f => _determine_modality table f.2)).eraseDups

theorem dicomGetPathMapping_cons_skip (table : ModalityTable)
    (p : String) (files : List (String × Metadata))
    (rest : List (String × List (String × Metadata)))
    (h : (files.filter (fun f => isDicomCandidate f.1)).isEmpty = true) :
    dicomGetPathMapping table ((p, files) :: rest) =
      dicomGetPathMapping table rest := by
  simp only [dicomGetPathMapping]
  rw [if_pos h]

theorem dicomGetPathMapping_cons_ambiguous (table : ModalityTable)
    (p : String) (files : List (String × Metadata))
    (rest : List (String × List (String × Metadata)))
    (h : ¬ (files.filter (fun f => isDicomCandidate f.1)).isEmpty = true)
    (h2 : 1 < (setDistinctModalities table files).length) :
    dicomGetPathMapping table ((p, files) :: rest) =
      .error ("Multiple modalities found in " ++ p) := by
  simp only [dicomGetPathMapping]
  rw [if_neg h]
  exact if_pos h2

theorem dicomGetPathMapping_cons_one (table : ModalityTable)
    (p : String) (files : List (String × Metadata))
    (rest : List (String × List (String × Metadata)))
    (h : ¬ (files.filter (fun f => isDicomCandidate f.1)).isEmpty = true)
    (h2 : ¬ 1 < (setDistinctModalities table files).length) :
    dicomGetPathMapping table ((p, files) :: rest) =
      match dicomGetPathMapping table rest with
      | .error e => .error e
      | .ok m => .ok ((p, (setDistinctModalities table files).headD "unknown") :: m) := by
  simp only [dicomGetPathMapping]
  rw [if_neg h]
  exact if_neg h2

/-- C3 (confirmed): a set whose files yield more than one distinct modality
makes the whole mapping raise; when every set's files agree, the mapping
succeeds and assigns exactly the one distinct modality to every set that has
DICOM files. -/
theorem claimC3 (table : ModalityTable)
    (sets : List (String × List (String × Metadata))) :
    ((∃ s ∈ sets, 1 < (setDistinctModalities table s.2).length) →
      ∃ e, dicomGetPathMapping table sets = .error e)
    ∧ ((∀ s ∈ sets, (setDistinctModalities table s.2).length ≤ 1) →
      dicomGetPathMapping table sets =
        .ok (sets.filterMap (fun s =>
          if (s.2.filter (fun f => isDicomCandidate f.1)).isEmpty then none
          else some (s.1, (setDistinctModalities table s.2).headD "unknown")))) := by
  induction sets with
  | nil =>
    refine ⟨?_, fun _ => rfl⟩
    rintro ⟨s, hs, -⟩
    exact absurd hs (List.not_mem_nil s)
  | cons s rest ih =>
    obtain ⟨p, files⟩ := s
    constructor
    · rintro ⟨b, hb, hlen⟩
      by_cases hemp : (files.filter (fun f => isDicomCandidate f.1)).isEmpty = true
      · rw [dicomGetPathMapping_cons_skip table p files rest hemp]
        rcases List.mem_cons.mp hb with rfl | hbrest
        · exfalso
          unfold setDistinctModalities at hlen
          rw [List.isEmpty_iff.mp hemp] at hlen
          rw [List.map_nil] at hlen
          exact absurd hlen (by decide)
        · exact ih.1 ⟨b, hbrest, hlen⟩
      · by_cases hamb : 1 < (setDistinctModalities table files).length
        · rw [dicomGetPathMapping_cons_ambiguous table p files rest hemp hamb]
          exact ⟨_, rfl⟩
        · rw [dicomGetPathMapping_cons_one table p files rest hemp hamb]
          have hrec : ∃ e, dicomGetPathMapping table rest = .error e := by
            rcases List.mem_cons.mp hb with rfl | hbrest
            · exact absurd hlen hamb
            · exact ih.1 ⟨b, hbrest, hlen⟩
          obtain ⟨e, he⟩ := hrec
          rw [he]
          exact ⟨e, rfl⟩
    · intro hall
      have hs := hall (p, files) (List.mem_cons_self _ _)
      have ih' := ih.2 (fun x hx => hall x (List.mem_cons_of_mem _ hx))
      by_cases hemp : (files.filter (fun f => isDicomCandidate f.1)).isEmpty = true
      · rw [dicomGetPathMapping_cons_skip table p files rest hemp, ih']
        simp [List.filterMap_cons, hemp]
      · rw [dicomGetPathMapping_cons_one table p files rest hemp (Nat.not_lt.mpr hs), ih']
        simp [List.filterMap_cons, hemp]

/-- C3 witness: a mixed set (one genuine modality, one `unknown`) raises;
an agreeing set maps to its single modality. -/
theorem claimC3_witness :
    (∃ e, dicomGetPathMapping [("T1w", [[("seriesdescription", ["T1"])]])]
      [("set1", [("a.dcm", [("seriesdescription", "T1")]),
                 ("b.dcm", [("seriesdescription", "XX")])])] = .error e)
    ∧ dicomGetPathMapping [("T1w", [[("seriesdescription", ["T1"])]])]
      [("set2", [("a.dcm", [("seriesdescription", "T1")]),
                 ("b.dcm", [("seriesdescription", "T1")])])] =
        .ok [("set2", "T1w")] := by
  constructor
  · exact (claimC3 _ _).1 ⟨_, List.mem_cons_self _ _, by decide⟩
  · exact ((claimC3 _ _).2 (by decide)).trans (by rfl)

/-! ### Claim C5 -/

/-- C5 (confirmed): for the NIfTI separator, a manifest with more than one
entry is a fatal integrity error, a single entry with index ≥ 2 is a fatal
integrity error, and a single entry with index 1 whose file is present is
renamed successfully. -/
theorem claimC5 (setId : String) (items : List ManifestItem)
    (filesOnDisk : List String) (hsid : setId ≠ "") :
    (1 < items.length →
      niftiSeparatorRun setId (some items) filesOnDisk =
        .error "NIfTI는 파일이 1개만 있어야 합니다.")
    ∧ (∀ item, items = [item] → 2 ≤ item.index →
      niftiSeparatorRun setId (some items) filesOnDisk =
        .error "NIfTI 파일의 index는 1이어야 합니다.")
    ∧ (∀ item, items = [item] → item.index = 1 →
        pyBasename item.file_path ∈ filesOnDisk →
      ∃ newName, niftiSeparatorRun setId (some items) filesOnDisk = .ok newName) := by
  have hlen : (_load_json_index items).length = items.length :=
    (List.perm_insertionSort _ items).length_eq
  refine ⟨?_, ?_, ?_⟩
  · intro h1
    simp only [niftiSeparatorRun]
    rw [if_neg hsid]
    have hne : (_load_json_index items).isEmpty = false := by
      cases h : _load_json_index items with
      | nil =>
        rw [h] at hlen
        simp at hlen
        omega
      | cons a l => rfl
    rw [if_neg (by simp [hne])]
    exact if_pos (by rw [hlen]; exact h1)
  · intro item hitems hidx
    subst hitems
    have hfl : _load_json_index [item] = [item] := rfl
    simp only [niftiSeparatorRun, hfl]
    rw [if_neg hsid]
    rw [if_neg (by simp)]
    rw [if_neg (by simp)]
    rw [if_neg (by simp)]
    simp only [List.headD]
    rw [if_pos hidx]
  · intro item hitems hidx hmem
    subst hitems
    have hfl : _load_json_index [item] = [item] := rfl
    simp only [niftiSeparatorRun, hfl]
    rw [if_neg hsid]
    rw [if_neg (by simp)]
    rw [if_neg (by simp)]
    rw [if_neg (by simp)]
    simp only [List.headD]
    rw [if_neg (by omega : ¬ (2 : Int) ≤ item.index)]
    have hc : filesOnDisk.contains (pyBasename item.file_path) = true :=
      List.elem_eq_true_of_mem hmem
    rw [if_neg (by rw [hc]; simp)]
    exact ⟨_, rfl⟩

/-- C5 witness: the three branches at concrete manifests. -/
theorem claimC5_witness :
    niftiSeparatorRun "h1" (some [⟨1, "/a/x.nii"⟩, ⟨2, "/a/y.nii"⟩]) ["x.nii", "y.nii"] =
      .error "NIfTI는 파일이 1개만 있어야 합니다."
    ∧ niftiSeparatorRun "h1" (some [⟨3, "/a/x.nii"⟩]) ["x.nii"] =
      .error "NIfTI 파일의 index는 1이어야 합니다."
    ∧ ∃ newName,
        niftiSeparatorRun "h1" (some [⟨1, "/a/x_T1w.nii.gz"⟩]) ["x_T1w.nii.gz"] = .ok newName :=
  ⟨(claimC5 "h1" [⟨1, "/a/x.nii"⟩, ⟨2, "/a/y.nii"⟩] ["x.nii", "y.nii"] (by decide)).1
      (by decide),
   (claimC5 "h1" [⟨3, "/a/x.nii"⟩] ["x.nii"] (by decide)).2.1 ⟨3, "/a/x.nii"⟩ rfl (by decide),
   (claimC5 "h1" [⟨1, "/a/x_T1w.nii.gz"⟩] ["x_T1w.nii.gz"] (by decide)).2.2
      ⟨1, "/a/x_T1w.nii.gz"⟩ rfl rfl (by decide)⟩

/-! ### Claim C6 -/

theorem parrecStep_eq (parData : String → Option (ParHeader × List ImageRow × Int))
    (vd : String) (acc : List (String × String))
    (p : String × Option String × Option String) :
    parrecStep parData vd acc p = acc ++ (parrecPairResult parData vd p).toList := by
  rcases p with ⟨stem, pr, rr⟩
  rcases pr with _ | pn <;> rcases rr with _ | rn <;>
    simp only [parrecStep, parrecPairResult, Option.toList, List.append_nil] <;>
    split <;> simp

theorem parrec_foldl_eq (parData : String → Option (ParHeader × List ImageRow × Int))
    (vd : String) :
    ∀ (pairs : List (String × Option String × Option String))
      (init : List (String × String)),
      pairs.foldl (parrecStep parData vd) init =
        init ++ pairs.filterMap (parrecPairResult parData vd)
  | [], init => by simp
  | p :: rest, init => by
    rw [List.foldl_cons, parrec_foldl_eq parData vd rest, parrecStep_eq,
      List.filterMap_cons]
    rcases h : parrecPairResult parData vd p with _ | x <;> simp [h]

/-- C6 (counterexample): a PAR/REC set with discontinuous image indices — the
rows carry indices 0 and 2 — passes validation (`valid = true`); index
discontinuity only produces a warning, contradicting the claim that index
continuity determines set validity. -/
theorem claimC6_counterexample :
    (validate_parrec_core ⟨none, none, some 2, some 1, some 1, some 1⟩
      [⟨1, 1, 1, 1, 0, 0, 0, 8, 100, 2, 2⟩, ⟨2, 1, 1, 1, 0, 0, 2, 8, 100, 2, 2⟩]
      8).valid = true
    ∧ (validate_parrec_core ⟨none, none, some 2, some 1, some 1, some 1⟩
      [⟨1, 1, 1, 1, 0, 0, 0, 8, 100, 2, 2⟩, ⟨2, 1, 1, 1, 0, 0, 2, 8, 100, 2, 2⟩]
      8).warnings = ["인덱스가 연속적이지 않음"] := by
  constructor <;> decide

/-- C6 (amended): a parsed PAR/REC set is judged valid exactly when the
header-field checks, the image-count check and the REC byte-size check all
pass; index continuity and bit-depth/resolution homogeneity produce warnings
only.  A set failing validation is dropped from the validator's results
while the remaining pairs are still processed (`None` only when no pair
survives). -/
theorem claimC6_amended :
    (∀ (h : ParHeader) (rows : List ImageRow) (recSize : Int),
      h.isEmptyDict = false → rows ≠ [] →
      ((validate_parrec_core h rows recSize).valid = true ↔
        check_header_validity h = [] ∧ (check_data_completeness h rows).1 = []
          ∧ check_file_size_consistency rows recSize = []))
    ∧ (∀ (parData : String → Option (ParHeader × List ImageRow × Int))
        (vd : String) (names : List String),
      parrecValidatorRun parData vd names =
        if ((parrecPairs names).filterMap (parrecPairResult parData vd)).isEmpty then none
        else some ((parrecPairs names).filterMap (parrecPairResult parData vd))) := by
  constructor
  · intro h rows recSize hne hrows
    simp only [validate_parrec_core]
    rw [if_neg (by simp [hne]), if_neg (by simp [List.isEmpty_iff, hrows])]
    simp [List.isEmpty_iff, List.append_eq_nil]
  · intro parData vd names
    simp only [parrecValidatorRun]
    rw [parrec_foldl_eq, List.nil_append]

/-- C6 witness: the amended validity criterion applied at a concrete passing
set, and the drop-without-abort behaviour at a batch with one failing and
one passing pair. -/
theorem claimC6_witness :
    (validate_parrec_core ⟨none, none, some 2, some 1, some 1, some 1⟩
      [⟨1, 1, 1, 1, 0, 0, 0, 8, 100, 2, 2⟩, ⟨2, 1, 1, 1, 0, 0, 1, 8, 100, 2, 2⟩]
      8).valid = true
    ∧ parrecValidatorRun
        (fun n => if n = "good.par"
          then some (⟨none, none, some 1, some 1, some 1, some 1⟩,
                     [⟨1, 1, 1, 1, 0, 0, 0, 8, 100, 2, 2⟩], 4)
          else none)
        "valid_data" ["bad.par", "bad.rec", "good.par", "good.rec"] =
      some [("valid_data/" ++ setIdParrec "good.par" "good.rec",
             setIdParrec "good.par" "good.rec")] := by
  constructor
  · exact (claimC6_amended.1 ⟨none, none, some 2, some 1, some 1, some 1⟩
      [⟨1, 1, 1, 1, 0, 0, 0, 8, 100, 2, 2⟩, ⟨2, 1, 1, 1, 0, 0, 1, 8, 100, 2, 2⟩]
      8 (by decide) (by decide)).mpr ⟨by decide, by decide, by decide⟩
  · rw [claimC6_amended.2]
    rw [if_neg (by set_option maxRecDepth 1000000 in decide)]
    set_option maxRecDepth 1000000 in decide

/-! ### Claim C7 -/

instance fsFileDescTotal : IsTotal FsFile (fun a b => b.mtime ≤ a.mtime) :=
  ⟨fun a b => le_total b.mtime a.mtime⟩

instance fsFileDescTrans : IsTrans FsFile (fun a b => b.mtime ≤ a.mtime) :=
  ⟨fun _ _ _ hab hbc => le_trans hbc hab⟩

/-- The head of the stable descending-mtime sort is a member of maximal
mtime. -/
theorem sortedDesc_head (l : List FsFile) (c : FsFile) (hne : l ≠ []) :
    (List.insertionSort (fun a b => b.mtime ≤ a.mtime) l).headD c ∈ l
    ∧ ∀ g ∈ l,
      g.mtime ≤ ((List.insertionSort (fun a b => b.mtime ≤ a.mtime) l).headD c).mtime := by
  have hperm := List.perm_insertionSort (fun a b : FsFile => b.mtime ≤ a.mtime) l
  have hsorted := List.sorted_insertionSort (fun a b : FsFile => b.mtime ≤ a.mtime) l
  cases hs : List.insertionSort (fun a b : FsFile => b.mtime ≤ a.mtime) l with
  | nil =>
    rw [hs] at hperm
    exact absurd hperm.symm.eq_nil hne
  | cons m tail =>
    rw [hs] at hperm hsorted
    refine ⟨hperm.subset (List.mem_cons_self m tail), ?_⟩
    intro g hg
    rcases List.mem_cons.mp (hperm.mem_iff.mpr hg) with rfl | htail
    · simp
    · simpa using List.rel_of_sorted_cons hsorted g htail

/-- C7 (confirmed): after translating each `%`-token of the template to a
glob `*`, the output directory is searched for `.nii.gz` matches first and
`.nii` matches as a fallback; zero matches is a fatal unresolved-output
error, and with several matches a most-recently-modified one is returned. -/
theorem claimC7 (dirFiles : List FsFile) (filenameWithoutExt : String) :
    (pyGlobFiles dirFiles (_percent_to_glob_pattern filenameWithoutExt ++ ".nii.gz") = [] →
      pyGlobFiles dirFiles (_percent_to_glob_pattern filenameWithoutExt ++ ".nii") = [] →
      _resolve_actual_output dirFiles filenameWithoutExt =
        .error ("No output matched pattern: " ++
          _percent_to_glob_pattern filenameWithoutExt ++ ".nii.gz"))
    ∧ (pyGlobFiles dirFiles (_percent_to_glob_pattern filenameWithoutExt ++ ".nii.gz") ≠ [] →
      ∃ f, _resolve_actual_output dirFiles filenameWithoutExt = .ok f
        ∧ f ∈ pyGlobFiles dirFiles (_percent_to_glob_pattern filenameWithoutExt ++ ".nii.gz")
        ∧ ∀ g ∈ pyGlobFiles dirFiles (_percent_to_glob_pattern filenameWithoutExt ++ ".nii.gz"),
            g.mtime ≤ f.mtime)
    ∧ (pyGlobFiles dirFiles (_percent_to_glob_pattern filenameWithoutExt ++ ".nii.gz") = [] →
      pyGlobFiles dirFiles (_percent_to_glob_pattern filenameWithoutExt ++ ".nii") ≠ [] →
      ∃ f, _resolve_actual_output dirFiles filenameWithoutExt = .ok f
        ∧ f ∈ pyGlobFiles dirFiles (_percent_to_glob_pattern filenameWithoutExt ++ ".nii")
        ∧ ∀ g ∈ pyGlobFiles dirFiles (_percent_to_glob_pattern filenameWithoutExt ++ ".nii"),
            g.mtime ≤ f.mtime) := by
  refine ⟨?_, ?_, ?_⟩
  · intro hgz hnii
    simp only [_resolve_actual_output]
    rw [hgz, hnii]
    rfl
  · intro hgz
    simp only [_resolve_actual_output]
    rw [if_neg (by simp [List.isEmpty_iff, hgz])]
    cases hc : pyGlobFiles dirFiles (_percent_to_glob_pattern filenameWithoutExt ++ ".nii.gz") with
    | nil => exact absurd hc hgz
    | cons c cs =>
      cases cs with
      | nil =>
        exact ⟨c, rfl, by simp [hc], by simp [hc]⟩
      | cons c2 cs' =>
        have hmax := sortedDesc_head (c :: c2 :: cs') c (by simp)
        exact ⟨_, rfl, hc ▸ hmax.1, hc ▸ hmax.2⟩
  · intro hgz hnii
    simp only [_resolve_actual_output]
    rw [hgz]
    rw [if_pos (by simp)]
    cases hc : pyGlobFiles dirFiles (_percent_to_glob_pattern filenameWithoutExt ++ ".nii") with
    | nil => exact absurd hc hnii
    | cons c cs =>
      cases cs with
      | nil =>
        exact ⟨c, rfl, by simp [hc], by simp [hc]⟩
      | cons c2 cs' =>
        have hmax := sortedDesc_head (c :: c2 :: cs') c (by simp)
        exact ⟨_, rfl, hc ▸ hmax.1, hc ▸ hmax.2⟩

/-- C7 witness: the three branches at concrete directories. -/
theorem claimC7_witness :
    _resolve_actual_output [⟨"other.txt", 1⟩] "sub-01_T1w" =
      .error ("No output matched pattern: " ++
        _percent_to_glob_pattern "sub-01_T1w" ++ ".nii.gz")
    ∧ (∃ f, _resolve_actual_output
        [⟨"sub-01_acq-x_run-01_T1w.nii.gz", 5⟩, ⟨"sub-01_acq-y_run-01_T1w.nii.gz", 9⟩]
        "sub-01_acq-%u_run-01_T1w" = .ok f
      ∧ f ∈ pyGlobFiles
          [⟨"sub-01_acq-x_run-01_T1w.nii.gz", 5⟩, ⟨"sub-01_acq-y_run-01_T1w.nii.gz", 9⟩]
          (_percent_to_glob_pattern "sub-01_acq-%u_run-01_T1w" ++ ".nii.gz")
      ∧ ∀ g ∈ pyGlobFiles
          [⟨"sub-01_acq-x_run-01_T1w.nii.gz", 5⟩, ⟨"sub-01_acq-y_run-01_T1w.nii.gz", 9⟩]
          (_percent_to_glob_pattern "sub-01_acq-%u_run-01_T1w" ++ ".nii.gz"),
          g.mtime ≤ f.mtime)
    ∧ (∃ f, _resolve_actual_output [⟨"sub-01_T1w.nii", 3⟩] "sub-01_T1w" = .ok f) := by
  refine ⟨?_, ?_, ?_⟩
  · exact (claimC7 [⟨"other.txt", 1⟩] "sub-01_T1w").1 (by decide) (by decide)
  · exact (claimC7 _ "sub-01_acq-%u_run-01_T1w").2.1 (by decide)
  · obtain ⟨f, hf, -, -⟩ := (claimC7 [⟨"sub-01_T1w.nii", 3⟩] "sub-01_T1w").2.2
      (by decide) (by decide)
    exact ⟨f, hf⟩

/-! ### Claim C1 -/

theorem lookupCounter_set_self (c : List (String × Int)) (k : String) (v : Int) :
    lookupCounter (setCounter c k v) k = some v := by
  induction c with
  | nil => simp [setCounter, lookupCounter]
  | cons kv rest ih =>
    by_cases h : kv.1 = k
    · simp [setCounter, lookupCounter, h]
    · simp only [setCounter]
      rw [if_neg h]
      simpa [lookupCounter, List.find?_cons, h] using ih

theorem lookupCounter_set_ne (c : List (String × Int)) (k : String) (v : Int)
    (k' : String) (h : k' ≠ k) :
    lookupCounter (setCounter c k v) k' = lookupCounter c k' := by
  induction c with
  | nil => simp [setCounter, lookupCounter, List.find?_cons, Ne.symm h]
  | cons kv rest ih =>
    by_cases hk : kv.1 = k
    · subst hk
      simp [setCounter, lookupCounter, List.find?_cons, Ne.symm h]
    · simp only [setCounter]
      rw [if_neg hk]
      by_cases hk' : kv.1 = k'
      · simp [lookupCounter, List.find?_cons, hk']
      · simpa [lookupCounter, List.find?_cons, hk'] using ih

theorem range_map_int_succ (s : Int) (n : Nat) :
    (List.range (n + 1)).map (fun i : Nat => s + (i : Int)) =
      s :: (List.range n).map (fun i : Nat => (s + 1) + (i : Int)) := by
  rw [List.range_succ_eq_map]
  simp only [List.map_cons, List.map_map, Nat.cast_zero, add_zero]
  congr 1
  apply List.map_congr_left
  intro i _
  show s + ((i + 1 : Nat) : Int) = s + 1 + (i : Int)
  push_cast
  ring

/-- The run numbers issued by the `create_bids_mapping` loop, for each key,
form the consecutive sequence starting at the counter state's start value. -/
theorem createAux_runs (fs : String → Option (List String))
    (ped : String → Option String) (suffixRules : SuffixRules)
    (subjectId trialIndex rawPath : String) (taskInfo : TaskInfo) :
    ∀ (entries : List (String × String)) (counters : List (String × Int))
      (m : List (String × String)) (log : List (String × Int)),
      createBidsMappingAux fs ped suffixRules subjectId trialIndex rawPath taskInfo
        entries counters = .ok (m, log) →
      ∀ k : String,
        runsForKey k log =
          (List.range
            (entriesForKey suffixRules subjectId trialIndex k entries).length).map
            (fun i : Nat =>
              startRunFor fs suffixRules subjectId trialIndex rawPath counters k entries
                + (i : Int)) := by
  intro entries
  induction entries with
  | nil =>
    intro counters m log hok k
    simp only [createBidsMappingAux, Except.ok.injEq, Prod.mk.injEq] at hok
    obtain ⟨-, rfl⟩ := hok
    simp [runsForKey, entriesForKey]
  | cons e rest ih =>
    intro counters m log hok k
    obtain ⟨folder, modality⟩ := e
    simp only [createBidsMappingAux] at hok
    cases hdt : find_data_type modality suffixRules with
    | none => simp [hdt] at hok
    | some dataType =>
      simp only [hdt] at hok
      cases hbf : build_bids_filename ped folder modality
          (entityRulesFor suffixRules dataType modality) subjectId trialIndex taskInfo
          (zero_fill ((lookupCounter
            (match lookupCounter counters
                (modalityKey subjectId trialIndex dataType modality) with
              | some _ => counters
              | none =>
                setCounter counters (modalityKey subjectId trialIndex dataType modality)
                  (get_base_run_number fs modality subjectId trialIndex rawPath dataType))
            (modalityKey subjectId trialIndex dataType modality)).getD 0)) with
      | error e' => rw [hbf] at hok; simp at hok
      | ok fn =>
        rw [hbf] at hok
        cases hrec : createBidsMappingAux fs ped suffixRules subjectId trialIndex
            rawPath taskInfo rest
            (setCounter
              (match lookupCounter counters
                  (modalityKey subjectId trialIndex dataType modality) with
                | some _ => counters
                | none =>
                  setCounter counters (modalityKey subjectId trialIndex dataType modality)
                    (get_base_run_number fs modality subjectId trialIndex rawPath dataType))
              (modalityKey subjectId trialIndex dataType modality)
              ((lookupCounter
                (match lookupCounter counters
                    (modalityKey subjectId trialIndex dataType modality) with
                  | some _ => counters
                  | none =>
                    setCounter counters (modalityKey subjectId trialIndex dataType modality)
                      (get_base_run_number fs modality subjectId trialIndex rawPath dataType))
                (modalityKey subjectId trialIndex dataType modality)).getD 0 + 1)) with
        | error e' => rw [hrec] at hok; simp at hok
        | ok p =>
          obtain ⟨m', log'⟩ := p
          rw [hrec] at hok
          simp only [Except.ok.injEq, Prod.mk.injEq] at hok
          obtain ⟨-, rfl⟩ := hok
          have hkey : keyOfEntry suffixRules subjectId trialIndex (folder, modality) =
              modalityKey subjectId trialIndex dataType modality := by
            simp [keyOfEntry, hdt]
          set key := modalityKey subjectId trialIndex dataType modality with hkeydef
          set counters1 :=
            (match lookupCounter counters key with
              | some _ => counters
              | none =>
                setCounter counters key
                  (get_base_run_number fs modality subjectId trialIndex rawPath dataType))
            with hc1
          set cur := (lookupCounter counters1 key).getD 0 with hcur
          have ihk := ih (setCounter counters1 key (cur + 1)) m' log' hrec k
          by_cases hk : key = k
          · subst hk
            have hstart2 :
                startRunFor fs suffixRules subjectId trialIndex rawPath
                  (setCounter counters1 key (cur + 1)) key rest = cur + 1 := by
              simp [startRunFor, lookupCounter_set_self]
            have hstart1 :
                startRunFor fs suffixRules subjectId trialIndex rawPath counters key
                  ((folder, modality) :: rest) = cur := by
              simp only [startRunFor]
              cases hlc : lookupCounter counters key with
              | some v =>
                have : counters1 = counters := by rw [hc1, hlc]
                rw [hcur, this, hlc]
                rfl
              | none =>
                have hc1' : counters1 = setCounter counters key
                    (get_base_run_number fs modality subjectId trialIndex rawPath dataType) := by
                  rw [hc1, hlc]
                have : cur = get_base_run_number fs modality subjectId trialIndex
                    rawPath dataType := by
                  rw [hcur, hc1', lookupCounter_set_self]
                  rfl
                rw [this]
                simp only [entriesForKey, List.filter_cons, hkey]
                rw [if_pos (by rfl)]
                simp [hdt]
            have hefk : entriesForKey suffixRules subjectId trialIndex key
                ((folder, modality) :: rest) =
                (folder, modality) :: entriesForKey suffixRules subjectId trialIndex key rest := by
              simp only [entriesForKey, List.filter_cons, hkey]
              rw [if_pos (by rfl)]
            have hrk : runsForKey key ((key, cur) :: log') = cur :: runsForKey key log' := by
              simp [runsForKey, List.filter_cons]
            rw [hrk, hefk, hstart1, ihk, hstart2]
            rw [List.length_cons, range_map_int_succ]
          · have hrk : runsForKey k ((key, cur) :: log') = runsForKey k log' := by
              simp [runsForKey, List.filter_cons, hk]
            have hefk : entriesForKey suffixRules subjectId trialIndex k
                ((folder, modality) :: rest) =
                entriesForKey suffixRules subjectId trialIndex k rest := by
              simp only [entriesForKey, List.filter_cons, hkey]
              rw [if_neg (by simpa using hk)]
            have hstart : startRunFor fs suffixRules subjectId trialIndex rawPath
                (setCounter counters1 key (cur + 1)) k rest =
                startRunFor fs suffixRules subjectId trialIndex rawPath counters k
                  ((folder, modality) :: rest) := by
              simp only [startRunFor]
              rw [lookupCounter_set_ne _ _ _ _ (Ne.symm hk)]
              have hluk : lookupCounter counters1 k = lookupCounter counters k := by
                rw [hc1]
                cases hlc : lookupCounter counters key with
                | some v => rfl
                | none => exact lookupCounter_set_ne _ _ _ _ (Ne.symm hk)
              rw [hluk]
              cases lookupCounter counters k with
              | some v => rfl
              | none =>
                rw [show entriesForKey suffixRules subjectId trialIndex k
                    ((folder, modality) :: rest) =
                    entriesForKey suffixRules subjectId trialIndex k rest from hefk]
            rw [hrk, hefk, ihk, hstart]

/-- C1 (confirmed): within one job, the run numbers issued under one
`(subject, session, dataType, modality)` counter key are the consecutive
sequence `base, base + 1, …, base + N - 1`, where `N` counts the sets of the
job sharing that key and `base` is the first entry's disk-scanned base
number; the base is `1` when the destination directory does not exist or
holds no `*_{modality}.nii.gz` file, and `max(existing run numbers) + 1`
otherwise. -/
theorem claimC1 (fs : String → Option (List String)) (ped : String → Option String)
    (suffixRules : SuffixRules) (subjectId trialIndex rawPath : String)
    (taskInfo : TaskInfo) (pathMapping m : List (String × String))
    (log : List (String × Int))
    (hok : create_bids_mapping fs ped suffixRules subjectId trialIndex rawPath
      taskInfo pathMapping = .ok (m, log)) :
    (∀ k : String,
      runsForKey k log =
        (List.range
          (entriesForKey suffixRules subjectId trialIndex k pathMapping).length).map
          (fun i : Nat =>
            startRunFor fs suffixRules subjectId trialIndex rawPath [] k pathMapping
              + (i : Int)))
    ∧ (∀ modality dataType : String,
      (fs (joinPath [rawPath, "sub-" ++ subjectId, "ses-" ++ trialIndex, dataType]) = none →
        get_base_run_number fs modality subjectId trialIndex rawPath dataType = 1)
      ∧ (∀ names,
        fs (joinPath [rawPath, "sub-" ++ subjectId, "ses-" ++ trialIndex, dataType]) =
          some names →
        pyGlobNames names ("*_" ++ modality ++ ".nii.gz") = [] →
        get_base_run_number fs modality subjectId trialIndex rawPath dataType = 1)
      ∧ (∀ names (n : Int) (ns : List Int),
        fs (joinPath [rawPath, "sub-" ++ subjectId, "ses-" ++ trialIndex, dataType]) =
          some names →
        (pyGlobNames names ("*_" ++ modality ++ ".nii.gz")).filterMap
          (fun f => runNumOfParts (pySplitChar f '_')) = n :: ns →
        get_base_run_number fs modality subjectId trialIndex rawPath dataType =
          ns.foldl max n + 1)) := by
  constructor
  · exact createAux_runs fs ped suffixRules subjectId trialIndex rawPath taskInfo
      pathMapping [] m log hok
  · intro modality dataType
    refine ⟨?_, ?_, ?_⟩
    · intro hdir
      simp [get_base_run_number, hdir]
    · intro names hdir hglob
      simp [get_base_run_number, hdir, hglob]
    · intro names n ns hdir hruns
      have hglob : (pyGlobNames names ("*_" ++ modality ++ ".nii.gz")).isEmpty = false := by
        cases hg : pyGlobNames names ("*_" ++ modality ++ ".nii.gz") with
        | nil => rw [hg] at hruns; simp at hruns
        | cons a l => rfl
      simp only [get_base_run_number, hdir]
      rw [if_neg (by simp [hglob]), hruns]

/-- C1 witness: with an existing `run-07` file on disk, two sets of the same
key get runs 8 and 9. -/
theorem claimC1_witness :
    runsForKey "01_01_anat_T1w"
      [("01_01_anat_T1w", 8), ("01_01_anat_T1w", 9)] = [8, 9]
    ∧ create_bids_mapping
        (fun d => if d = "raw/sub-01/ses-01/anat"
          then some ["sub-01_ses-01_run-07_T1w.nii.gz"] else none)
        (fun _ => none) [("anat", [("T1w", [])])] "01" "01" "raw" ⟨false, ""⟩
        [("f1", "T1w"), ("f2", "T1w")] =
      .ok ([("f1", "raw/sub-01/ses-01/anat/sub-01_ses-01_run-08_T1w.nii.gz"),
            ("f2", "raw/sub-01/ses-01/anat/sub-01_ses-01_run-09_T1w.nii.gz")],
           [("01_01_anat_T1w", 8), ("01_01_anat_T1w", 9)]) := by
  constructor
  · exact ((claimC1
      (fun d => if d = "raw/sub-01/ses-01/anat"
        then some ["sub-01_ses-01_run-07_T1w.nii.gz"] else none)
      (fun _ => none) [("anat", [("T1w", [])])] "01" "01" "raw" ⟨false, ""⟩
      [("f1", "T1w"), ("f2", "T1w")] _ _ rfl).1 "01_01_anat_T1w").trans (by decide)
  · rfl

/-! ### Claim C10 -/

theorem matchEntity_cons (c : Char) (x : List Char) :
    matchEntity (c :: x) =
      if c = '_' ∧ entTokenHasPercent (x.takeWhile (· ≠ '_')) = true then
        some (x.dropWhile (· ≠ '_'))
      else none := by
  by_cases hc : c = '_'
  · subst hc
    simp [matchEntity]
  · rw [matchEntity.eq_def]
    split
    · simp_all
    · rw [if_neg (by simp [hc])]

theorem removeEnt_nil : removeEnt [] = [] := by
  simp [removeEnt]

theorem removeEnt_cons_pos {c : Char} {rest : List Char}
    (h : c = '_' ∧ entTokenHasPercent (rest.takeWhile (· ≠ '_')) = true) :
    removeEnt (c :: rest) = removeEnt (rest.dropWhile (· ≠ '_')) := by
  rw [removeEnt]
  rw [if_pos h]

theorem removeEnt_cons_neg {c : Char} {rest : List Char}
    (h : ¬(c = '_' ∧ entTokenHasPercent (rest.takeWhile (· ≠ '_')) = true)) :
    removeEnt (c :: rest) = c :: removeEnt rest := by
  rw [removeEnt]
  rw [if_neg h]

theorem collapseU_nil : collapseU [] = [] := by
  simp [collapseU]

theorem collapseU_cons_pos {c : Char} {rest : List Char} (h : c = '_') :
    collapseU (c :: rest) = '_' :: collapseU (rest.dropWhile (· = '_')) := by
  rw [collapseU]
  rw [if_pos h]

theorem collapseU_cons_neg {c : Char} {rest : List Char} (h : ¬ c = '_') :
    collapseU (c :: rest) = c :: collapseU rest := by
  rw [collapseU]
  rw [if_neg h]

theorem dropWhile_head_not (p : Char → Bool) :
    ∀ (l : List Char) (a : Char) (t : List Char), l.dropWhile p = a :: t → p a = false := by
  intro l
  induction l with
  | nil => intro a t h; simp [List.dropWhile] at h
  | cons c rest ih =>
    intro a t h
    rw [List.dropWhile_cons] at h
    by_cases hp : p c
    · rw [if_pos hp] at h
      exact ih a t h
    · rw [if_neg hp] at h
      injection h with h1 _
      subst h1
      simpa using hp

/-- After a removed match, and after every scan step, a `_`-headed (or empty)
input stays `_`-headed (or empty). -/
theorem removeEnt_underscore_headed :
    ∀ l : List Char, (l = [] ∨ ∃ t, l = '_' :: t) →
      (removeEnt l = [] ∨ ∃ t, removeEnt l = '_' :: t) := by
  intro l
  induction l using removeEnt.induct with
  | case1 =>
    intro _
    left
    exact removeEnt_nil
  | case2 c rest h ih =>
    intro _
    rw [removeEnt_cons_pos h]
    apply ih
    cases hd : rest.dropWhile (· ≠ '_') with
    | nil => exact Or.inl rfl
    | cons a t =>
      right
      have ha : a = '_' := by simpa using dropWhile_head_not _ rest a t hd
      exact ⟨t, by rw [ha]⟩
  | case3 c rest h ih =>
    rintro (habs | ⟨t, ht⟩)
    · simp at habs
    · injection ht with h1 h2
      rw [removeEnt_cons_neg h, h1]
      exact Or.inr ⟨removeEnt rest, rfl⟩

/-- The scan does not change the leading underscore-free run. -/
theorem takeWhile_removeEnt (l : List Char) :
    (removeEnt l).takeWhile (· ≠ '_') = l.takeWhile (· ≠ '_') := by
  induction l using removeEnt.induct with
  | case1 => rw [removeEnt_nil]
  | case2 c rest h ih =>
    rw [removeEnt_cons_pos h]
    obtain ⟨h1, -⟩ := h
    subst h1
    have hu : removeEnt (rest.dropWhile (· ≠ '_')) = [] ∨
        ∃ t, removeEnt (rest.dropWhile (· ≠ '_')) = '_' :: t := by
      apply removeEnt_underscore_headed
      cases hd : rest.dropWhile (· ≠ '_') with
      | nil => exact Or.inl rfl
      | cons a t =>
        have ha : a = '_' := by simpa using dropWhile_head_not _ rest a t hd
        exact Or.inr ⟨t, by rw [ha]⟩
    have hrhs : (('_' : Char) :: rest).takeWhile (· ≠ '_') = [] := by
      rw [List.takeWhile_cons, if_neg (by simp)]
    rcases hu with h0 | ⟨t, ht⟩
    · rw [h0, hrhs]
      rfl
    · rw [ht, hrhs, List.takeWhile_cons, if_neg (by simp)]
  | case3 c rest h ih =>
    rw [removeEnt_cons_neg h]
    rw [List.takeWhile_cons, List.takeWhile_cons]
    by_cases hc : c = '_'
    · rw [if_neg (by simp [hc]), if_neg (by simp [hc])]
    · rw [if_pos (by simp [hc]), if_pos (by simp [hc]), ih]

/-- No suffix of the scan's output matches the wildcard-entity pattern. -/
theorem removeEnt_no_match (l : List Char) :
    ∀ t, t <:+ removeEnt l → matchEntity t = none := by
  induction l using removeEnt.induct with
  | case1 =>
    intro t ht
    rw [removeEnt_nil] at ht
    rw [List.suffix_nil.mp ht]
    rfl
  | case2 c rest h ih =>
    rw [removeEnt_cons_pos h]
    exact ih
  | case3 c rest h ih =>
    rw [removeEnt_cons_neg h]
    intro t ht
    rcases List.suffix_cons_iff.mp ht with rfl | hts
    · rw [matchEntity_cons, takeWhile_removeEnt]
      exact if_neg h
    · exact ih t hts

theorem takeWhile_collapseU (l : List Char) :
    (collapseU l).takeWhile (· ≠ '_') = l.takeWhile (· ≠ '_') := by
  induction l using collapseU.induct with
  | case1 => rw [collapseU_nil]
  | case2 rest ih =>
    rw [collapseU_cons_pos rfl]
    rw [List.takeWhile_cons, List.takeWhile_cons]
    rw [if_neg (by simp), if_neg (by simp)]
  | case3 c rest h ih =>
    rw [collapseU_cons_neg h]
    rw [List.takeWhile_cons, List.takeWhile_cons]
    rw [if_pos (by simp [h]), if_pos (by simp [h]), ih]

theorem head?_collapseU (l : List Char) : (collapseU l).head? = l.head? := by
  cases l with
  | nil => rw [collapseU_nil]
  | cons c rest =>
    by_cases hc : c = '_'
    · subst hc
      rw [collapseU_cons_pos rfl]
      rfl
    · rw [collapseU_cons_neg hc]
      rfl

theorem suffix_underscore_dropWhile :
    ∀ x : List Char, ('_' :: x.dropWhile (· = '_')) <:+ ('_' :: x) := by
  intro x
  induction x with
  | nil => exact List.suffix_refl _
  | cons c y ih =>
    by_cases hc : c = '_'
    · subst hc
      rw [List.dropWhile_cons, if_pos (by simp)]
      exact ih.trans (List.suffix_cons '_' ('_' :: y))
    · rw [List.dropWhile_cons, if_neg (by simpa using hc)]

/-- Underscore-run collapsing cannot create a wildcard-entity match. -/
theorem collapseU_no_match :
    ∀ l : List Char, (∀ t, t <:+ l → matchEntity t = none) →
      ∀ t, t <:+ collapseU l → matchEntity t = none := by
  intro l
  induction l using collapseU.induct with
  | case1 =>
    intro _ t ht
    rw [collapseU_nil] at ht
    rw [List.suffix_nil.mp ht]
    rfl
  | case2 rest ih =>
    intro hl
    rw [collapseU_cons_pos rfl]
    intro t ht
    rcases List.suffix_cons_iff.mp ht with rfl | hts
    · have hnone := hl _ (suffix_underscore_dropWhile rest)
      rw [matchEntity_cons] at hnone
      by_cases hP : ('_' : Char) = '_' ∧
          entTokenHasPercent ((rest.dropWhile (· = '_')).takeWhile (· ≠ '_')) = true
      · rw [if_pos hP] at hnone
        exact absurd hnone (by simp)
      · rw [matchEntity_cons, takeWhile_collapseU]
        exact if_neg hP
    · refine ih ?_ t hts
      intro u hu
      exact hl u (hu.trans ((List.dropWhile_suffix _).trans
        (List.suffix_cons '_' rest)))
  | case3 c rest h ih =>
    intro hl
    rw [collapseU_cons_neg h]
    intro t ht
    rcases List.suffix_cons_iff.mp ht with rfl | hts
    · rw [matchEntity_cons]
      exact if_neg (by simp [h])
    · refine ih ?_ t hts
      intro u hu
      exact hl u (hu.trans (List.suffix_cons c rest))

theorem rstrip_decomp (m : List Char) :
    ∃ k, m = (m.reverse.dropWhile (· = '_')).reverse ++ List.replicate k '_' := by
  refine ⟨(m.reverse.takeWhile (· = '_')).length, ?_⟩
  have hrep : m.reverse.takeWhile (· = '_') =
      List.replicate (m.reverse.takeWhile (· = '_')).length '_' := by
    apply List.eq_replicate_of_mem
    intro b hb
    simpa using List.mem_takeWhile_imp hb
  conv_lhs => rw [← m.reverse_reverse,
    ← List.takeWhile_append_dropWhile (p := (· = '_')) (l := m.reverse)]
  rw [List.reverse_append]
  congr 1
  conv_lhs => rw [hrep]
  rw [List.reverse_replicate]

theorem takeWhile_append_replicate (y : List Char) (k : Nat) :
    (y ++ List.replicate k '_').takeWhile (· ≠ '_') = y.takeWhile (· ≠ '_') := by
  induction y with
  | nil =>
    cases k with
    | zero => rfl
    | succ k' =>
      rw [List.nil_append, List.replicate_succ, List.takeWhile_cons,
        if_neg (by simp)]
      rfl
  | cons c y ih =>
    rw [List.cons_append, List.takeWhile_cons, List.takeWhile_cons]
    by_cases hc : c = '_'
    · rw [if_neg (by simp [hc]), if_neg (by simp [hc])]
    · rw [if_pos (by simp [hc]), if_pos (by simp [hc]), ih]

/-- Edge-stripping of underscores cannot create a wildcard-entity match. -/
theorem strip_no_match (m : List Char)
    (hm : ∀ t, t <:+ m → matchEntity t = none) :
    ∀ t, t <:+ stripUnderscores m → matchEntity t = none := by
  have hd : ∀ t, t <:+ m.dropWhile (· = '_') → matchEntity t = none :=
    fun t ht => hm t (ht.trans (List.dropWhile_suffix _))
  obtain ⟨k, hk⟩ := rstrip_decomp (m.dropWhile (· = '_'))
  intro t ht
  cases t with
  | nil => rfl
  | cons c y =>
    by_cases hc : c = '_'
    · subst hc
      obtain ⟨u, hu⟩ := ht
      have hsfx : ('_' :: (y ++ List.replicate k '_')) <:+ m.dropWhile (· = '_') := by
        refine ⟨u, ?_⟩
        calc u ++ '_' :: (y ++ List.replicate k '_')
            = (u ++ '_' :: y) ++ List.replicate k '_' := by simp
          _ = stripUnderscores m ++ List.replicate k '_' := by rw [hu]
          _ = m.dropWhile (· = '_') := hk.symm
      have hnone := hd _ hsfx
      rw [matchEntity_cons, takeWhile_append_replicate] at hnone
      by_cases hP : ('_' : Char) = '_' ∧
          entTokenHasPercent (y.takeWhile (· ≠ '_')) = true
      · rw [if_pos hP] at hnone
        exact absurd hnone (by simp)
      · rw [matchEntity_cons]
        exact if_neg hP
    · rw [matchEntity_cons]
      exact if_neg (by simp [hc])

theorem hasPercentEntity_eq_false (l : List Char)
    (h : ∀ t, t <:+ l → matchEntity t = none) :
    hasPercentEntity l = false := by
  unfold hasPercentEntity
  rw [List.any_eq_false]
  intro t ht
  rw [h t ((List.mem_tails t l).mp ht)]
  simp

/-- Underscore-run collapsing leaves no two consecutive underscores. -/
theorem collapseU_no_doubleU (l : List Char) : ¬ ['_', '_'] <:+: collapseU l := by
  induction l using collapseU.induct with
  | case1 =>
    rw [collapseU_nil]
    simp
  | case2 rest ih =>
    rw [collapseU_cons_pos rfl]
    intro habs
    rcases List.infix_cons_iff.mp habs with hpre | hinf
    · obtain ⟨u, hu⟩ := hpre
      simp only [List.cons_append] at hu
      injection hu with _ hu2
      have hh : (collapseU (rest.dropWhile (· = '_'))).head? = some '_' := by
        rw [← hu2]
        rfl
      rw [head?_collapseU] at hh
      cases hd : rest.dropWhile (· = '_') with
      | nil => rw [hd] at hh; simp at hh
      | cons a t =>
        rw [hd] at hh
        have ha : a = '_' := by simpa using hh
        have hnot := dropWhile_head_not _ rest a t hd
        rw [ha] at hnot
        simp at hnot
    · exact ih hinf
  | case3 c rest h ih =>
    rw [collapseU_cons_neg h]
    intro habs
    rcases List.infix_cons_iff.mp habs with hpre | hinf
    · obtain ⟨u, hu⟩ := hpre
      simp only [List.cons_append] at hu
      injection hu with hu1 _
      exact h hu1.symm
    · exact ih hinf

theorem strip_isPrefixOf_dropped (m : List Char) :
    stripUnderscores m <+: m.dropWhile (· = '_') := by
  obtain ⟨k, hk⟩ := rstrip_decomp (m.dropWhile (· = '_'))
  exact ⟨List.replicate k '_', hk.symm⟩

theorem strip_no_doubleU (m : List Char) (hm : ¬ ['_', '_'] <:+: m) :
    ¬ ['_', '_'] <:+: stripUnderscores m := by
  intro habs
  exact hm (habs.trans ((strip_isPrefixOf_dropped m).isInfix.trans
    (List.dropWhile_suffix _).isInfix))

theorem strip_edges (m : List Char) :
    (stripUnderscores m).head? ≠ some '_'
    ∧ (stripUnderscores m).getLast? ≠ some '_' := by
  constructor
  · cases hs : stripUnderscores m with
    | nil => simp
    | cons c t =>
      obtain ⟨u, hu⟩ := strip_isPrefixOf_dropped m
      rw [hs] at hu
      intro habs
      have hc : c = '_' := by simpa using habs
      have hnot := dropWhile_head_not (· = '_') m c (t ++ u) (by rw [← hu]; rfl)
      rw [hc] at hnot
      simp at hnot
  · show ((m.dropWhile (· = '_')).reverse.dropWhile (· = '_')).reverse.getLast? ≠ some '_'
    rw [List.getLast?_reverse]
    cases hd : (m.dropWhile (· = '_')).reverse.dropWhile (· = '_') with
    | nil => simp
    | cons a t =>
      intro habs
      have ha : a = '_' := by simpa using habs
      have hnot := dropWhile_head_not (· = '_') _ a t hd
      rw [ha] at hnot
      simp at hnot

/-- C10 (confirmed): `clean_filename` removes every BIDS entity whose value
contains a `%` wildcard, so the name written for a NIfTI source never
contains a wildcard entity; the underscores left by the removal are
collapsed (no two consecutive underscores remain) and stripped from both
edges. -/
theorem claimC10 (s : String) :
    hasPercentEntity (clean_filename s).data = false
    ∧ ¬ ['_', '_'] <:+: (clean_filename s).data
    ∧ (clean_filename s).data.head? ≠ some '_'
    ∧ (clean_filename s).data.getLast? ≠ some '_' := by
  have h1 := removeEnt_no_match s.data
  have h2 := collapseU_no_match (removeEnt s.data) h1
  have h3 := strip_no_match (collapseU (removeEnt s.data)) h2
  exact ⟨hasPercentEntity_eq_false _ h3,
    strip_no_doubleU _ (collapseU_no_doubleU (removeEnt s.data)),
    (strip_edges _).1, (strip_edges _).2⟩

end Bids
